import Mathlib

/-!
Verification development for the decision-maker-engine backend.

We give a shallow embedding, in Lean, of the components of the backend that
the specification's claims are about, translated from the Python sources:

* `PyStr` — the string primitives the code uses (`str.strip`, `str.lower`,
  substring containment), modelled over `List Char` with ASCII semantics.
* `Rules` — `app/services/decision_maker_rules.py`: the negative/positive
  title regexes (modelled by an executable word-boundary matcher),
  `is_decision_maker_title`, `title_matches_keywords`,
  `decision_maker_query_keywords`.
* `Credits` — `app/services/credits_engine.py`: the append-only ledger,
  the balance cache, `recalculate_effective_balance` and
  `spend_credits_for_job`.  Database timestamps are modelled as `Nat`;
  the SQL `ORDER BY expires_at ASC, created_at ASC, id ASC` is modelled
  with PostgreSQL semantics (`NULLS LAST` for `ASC`).
* `Costs` — `app/services/costs.py`, with Python floats idealised as exact
  rationals and `round(·, 6)` as decimal round-half-to-even.
* `Runner` — the per-row section of `_process_job_task` in
  `app/api/endpoints/jobs.py` (candidate validation, the credit spend at
  the row level, persistence and counters).  Python keyword-argument
  binding for the credits-engine call is modelled explicitly because the
  call site passes a keyword the engine does not accept.
* `LLM` — the retry loop and usage accounting of `_chat_completion` in
  `app/services/llm/client.py`, with the per-attempt provider behaviour
  supplied as an oracle.
* `Serper` — the sliding-window rate limiter of
  `app/services/search/serper.py`, with monotonic-clock readings supplied
  as a trace.
-/

namespace PyStr

/-- Whitespace characters recognised by Python's `str.strip()` (ASCII model). -/
def isPyWS (c : Char) : Bool :=
  c = ' ' || c = '\t' || c = '\n' || c = '\r' || c = '\x0b' || c = '\x0c'

/-- Strip from the front: drop leading whitespace. -/
def stripFront (l : List Char) : List Char := l.dropWhile isPyWS

/-- Model of Python `str.strip()`: drop leading and trailing whitespace. -/
def stripChars (l : List Char) : List Char :=
  ((l.dropWhile isPyWS).reverse.dropWhile isPyWS).reverse

/-- Model of Python `str.strip()` on strings. -/
def pyStrip (s : String) : String := ⟨stripChars s.data⟩

/-- Model of Python `str.lower()` (ASCII model, via `Char.toLower`). -/
def pyLower (s : String) : String := ⟨s.data.map Char.toLower⟩

/-- Does `hay` start with `needle` (exact characters)? -/
def startsWithChars : List Char → List Char → Bool
  | _, [] => true
  | [], _ :: _ => false
  | h :: hs, n :: ns => h = n && startsWithChars hs ns

/-- Model of Python `needle in hay` substring containment. -/
def containsChars : List Char → List Char → Bool
  | hay, [] => hay.isEmpty || true
  | [], _ :: _ => false
  | h :: hs, n :: ns => startsWithChars (h :: hs) (n :: ns) || containsChars hs (n :: ns)

/-- Substring containment on strings, Python `needle in hay`. -/
def containsStr (hay needle : String) : Bool := containsChars hay.data needle.data

theorem dropWhile_isPyWS_head_false :
    ∀ (l : List Char), ∀ c ∈ (l.dropWhile isPyWS).head?, isPyWS c = false := by
  intro l
  induction l with
  | nil => intro c hc; simp [List.dropWhile] at hc
  | cons a as ih =>
    intro c hc
    by_cases ha : isPyWS a
    · rw [List.dropWhile_cons_of_pos ha] at hc
      exact ih c hc
    · rw [List.dropWhile_cons_of_neg ha] at hc
      simp at hc
      subst hc
      simpa using ha

theorem dropWhile_of_head_false {l : List Char}
    (h : ∀ c ∈ l.head?, isPyWS c = false) : l.dropWhile isPyWS = l := by
  cases l with
  | nil => rfl
  | cons a as =>
    have : isPyWS a = false := h a (by simp)
    simp [List.dropWhile, this]

theorem dropWhile_isPyWS_idem (l : List Char) :
    (l.dropWhile isPyWS).dropWhile isPyWS = l.dropWhile isPyWS :=
  dropWhile_of_head_false (dropWhile_isPyWS_head_false l)

theorem stripChars_sublist (l : List Char) : (stripChars l).Sublist l := by
  unfold stripChars
  have h1 : (l.dropWhile isPyWS).Sublist l := List.dropWhile_sublist _
  have h2 : ((l.dropWhile isPyWS).reverse.dropWhile isPyWS).Sublist
      (l.dropWhile isPyWS).reverse := List.dropWhile_sublist _
  have h3 := List.Sublist.reverse h2
  rw [List.reverse_reverse] at h3
  exact h3.trans h1

theorem head?_of_isPrefix {α : Type} {s m : List α} (h : s <+: m) (c : α)
    (hc : s.head? = some c) : m.head? = some c := by
  obtain ⟨t, rfl⟩ := h
  cases s with
  | nil => simp at hc
  | cons x xs =>
    simp at hc
    simp [hc]

theorem stripChars_prefixOf (l : List Char) : stripChars l <+: l.dropWhile isPyWS := by
  unfold stripChars
  have h : ((l.dropWhile isPyWS).reverse.dropWhile isPyWS) <:+ (l.dropWhile isPyWS).reverse :=
    List.dropWhile_suffix _
  have h2 := List.reverse_prefix.mpr h
  simpa using h2

theorem stripChars_idem (l : List Char) : stripChars (stripChars l) = stripChars l := by
  have hfront : (stripChars l).dropWhile isPyWS = stripChars l := by
    apply dropWhile_of_head_false
    intro c hc
    have hm := head?_of_isPrefix (stripChars_prefixOf l) c hc
    exact dropWhile_isPyWS_head_false l c hm
  show (((stripChars l).dropWhile isPyWS).reverse.dropWhile isPyWS).reverse = stripChars l
  rw [hfront]
  have hrev : (stripChars l).reverse = ((l.dropWhile isPyWS).reverse.dropWhile isPyWS) := by
    unfold stripChars
    rw [List.reverse_reverse]
  rw [hrev, dropWhile_isPyWS_idem]
  rfl

theorem pyStrip_idem (s : String) : pyStrip (pyStrip s) = pyStrip s := by
  unfold pyStrip
  exact congrArg String.mk (stripChars_idem s.data)

theorem pyStrip_empty : pyStrip "" = "" := rfl

end PyStr

namespace Credits

/-- One row of the `credit_ledger` table (`app/models/credit_ledger.py`),
restricted to the fields the credits engine reads and writes.  Timestamps
are modelled as naturals. -/
structure LedgerRow where
  id : Nat
  userId : String
  lotId : Option String
  eventType : String
  delta : Int
  source : String
  jobId : Option Nat
  createdAt : Nat
  expiresAt : Option Nat
  deriving Repr, DecidableEq

/-- Database state seen by the credits engine: the ledger rows, the
`credit_accounts` cache (user id to balance) and the next primary key. -/
structure EngineState where
  ledger : List LedgerRow
  accounts : List (String × Int)
  nextId : Nat
  deriving Repr, DecidableEq

def lookupAccount (st : EngineState) (u : String) : Option Int :=
  (st.accounts.find? (fun p => p.1 == u)).map (fun p => p.2)

def setAccount (accounts : List (String × Int)) (u : String) (b : Int) :
    List (String × Int) :=
  if accounts.any (fun p => p.1 == u) then
    accounts.map (fun p => if p.1 == u then (u, b) else p)
  else accounts ++ [(u, b)]

/-- Model of `get_or_create_credit_account` (credits_engine.py lines 28-35). -/
def get_or_create_credit_account (st : EngineState) (u : String) : EngineState × Int :=
  match lookupAccount st u with
  | some b => (st, b)
  | none => ({ st with accounts := st.accounts ++ [(u, 0)] }, 0)

/-- The SQL filter `expires_at IS NULL OR expires_at > now`. -/
def notExpired (now : Nat) (r : LedgerRow) : Bool :=
  match r.expiresAt with
  | none => true
  | some e => now < e

/-- Sum of ledger deltas for `u` over rows that are null-expiry or expire
strictly after `now` (the aggregate query in `recalculate_effective_balance`,
credits_engine.py lines 44-49). -/
def ledgerSum (ledger : List LedgerRow) (u : String) (now : Nat) : Int :=
  ((ledger.filter (fun r => r.userId == u && notExpired now r)).map (fun r => r.delta)).sum

/-- Model of `recalculate_effective_balance` (credits_engine.py lines 42-53):
sum the non-expired deltas, get-or-create the account, write the sum into it,
return it. -/
def recalculate_effective_balance (st : EngineState) (u : String) (now : Nat) :
    EngineState × Int :=
  let total := ledgerSum st.ledger u now
  let st1 := (get_or_create_credit_account st u).1
  ({ st1 with accounts := setAccount st1.accounts u total }, total)

/-- Sort key of the lot query `ORDER BY expires_at ASC, created_at ASC, id ASC`
(credits_engine.py line 133).  On the PostgreSQL backend `ASC` places NULLs
last, so a null `expires_at` maps to the largest first component. -/
def lotKey (r : LedgerRow) : Nat × Nat × Nat × Nat :=
  ((match r.expiresAt with | none => 1 | some _ => 0),
   (match r.expiresAt with | none => 0 | some e => e),
   r.createdAt, r.id)

def keyLE (x y : Nat × Nat × Nat × Nat) : Prop :=
  x.1 < y.1 ∨ (x.1 = y.1 ∧ (x.2.1 < y.2.1 ∨ (x.2.1 = y.2.1 ∧
    (x.2.2.1 < y.2.2.1 ∨ (x.2.2.1 = y.2.2.1 ∧ x.2.2.2 ≤ y.2.2.2)))))

/-- Soonest-to-expire-first order on ledger rows. -/
def lotRel (a b : LedgerRow) : Prop := keyLE (lotKey a) (lotKey b)

instance : DecidableRel lotRel := fun a b => by
  unfold lotRel keyLE
  infer_instance

instance : IsTotal LedgerRow lotRel where
  total := by
    intro a b
    unfold lotRel keyLE
    omega

instance : IsTrans LedgerRow lotRel where
  trans := by
    intro a b c
    unfold lotRel keyLE
    omega

/-- The rows the lot query returns before ordering: positive delta, owned by
`u`, not expired as of `now` (credits_engine.py lines 129-135). -/
def candidateLots (ledger : List LedgerRow) (u : String) (now : Nat) : List LedgerRow :=
  ledger.filter (fun r => r.userId == u && 0 < r.delta && notExpired now r)

/-- The ordered lot list of the spend loop. -/
def sortedLots (ledger : List LedgerRow) (u : String) (now : Nat) : List LedgerRow :=
  List.insertionSort lotRel (candidateLots ledger u now)

/-- The aggregate `lot_total` query inside the spend loop (credits_engine.py
lines 144-148): sum of all deltas sharing `lot_id` for this user.  The
session runs with `autoflush=False`, so rows added during the current spend
are not visible to this query; it always reads the ledger as of entry. -/
def lotRemaining (ledger : List LedgerRow) (u : String) (lid : String) : Int :=
  ((ledger.filter (fun r => r.userId == u && r.lotId == some lid)).map (fun r => r.delta)).sum

structure SpendAcc where
  remaining : Int
  newRows : List LedgerRow
  nid : Nat
  deriving Repr, DecidableEq

/-- One iteration of the spend loop (credits_engine.py lines 138-164). -/
def spendStep (ledger0 : List LedgerRow) (u source : String) (jobId : Nat) (now : Nat)
    (acc : SpendAcc) (lot : LedgerRow) : SpendAcc :=
  if acc.remaining ≤ 0 then acc
  else
    match lot.lotId with
    | none => acc
    | some lid =>
      if lid = "" then acc
      else
        let lotTotal := lotRemaining ledger0 u lid
        if lotTotal ≤ 0 then acc
        else
          let use := min lotTotal acc.remaining
          { remaining := acc.remaining - use,
            newRows := acc.newRows ++
              [{ id := acc.nid, userId := u, lotId := some lid, eventType := "spend",
                 delta := -use, source := source, jobId := some jobId,
                 createdAt := now, expiresAt := lot.expiresAt }],
            nid := acc.nid + 1 }

/-- Model of `spend_credits_for_job` (credits_engine.py lines 111-170). -/
def spend_credits_for_job (st : EngineState) (u : String) (amount : Int)
    (jobId : Nat) (source : String) (now : Nat) : Except String EngineState :=
  if amount ≤ 0 then .ok st
  else
    let st1 := (get_or_create_credit_account st u).1
    let recalc := recalculate_effective_balance st1 u now
    let st2 := recalc.1
    let effective := recalc.2
    if effective < amount then .error "insufficient_credits"
    else
      let lots := sortedLots st2.ledger u now
      let res := lots.foldl (spendStep st2.ledger u source jobId now)
        ⟨amount, [], st2.nextId⟩
      if res.remaining ≠ 0 then .error "insufficient_credits"
      else
        .ok { ledger := st2.ledger ++ res.newRows,
              accounts := setAccount st2.accounts u ((lookupAccount st2 u).getD 0 - amount),
              nextId := res.nid }

theorem ledger_get_or_create (st : EngineState) (u : String) :
    ((get_or_create_credit_account st u).1).ledger = st.ledger := by
  unfold get_or_create_credit_account
  cases lookupAccount st u <;> rfl

theorem nextId_get_or_create (st : EngineState) (u : String) :
    ((get_or_create_credit_account st u).1).nextId = st.nextId := by
  unfold get_or_create_credit_account
  cases lookupAccount st u <;> rfl

theorem find?_map_update (u : String) (b : Int) :
    ∀ (accounts : List (String × Int)), accounts.any (fun p => p.1 == u) = true →
    (accounts.map (fun p => if p.1 == u then (u, b) else p)).find?
      (fun p => p.1 == u) = some (u, b) := by
  intro accounts
  induction accounts with
  | nil => intro h; simp at h
  | cons q qs ih =>
    intro h
    by_cases hq : (q.1 == u) = true
    · simp only [List.map_cons, if_pos hq]
      rw [List.find?]
      simp
    · simp only [List.map_cons, if_neg hq]
      rw [List.find?]
      simp only [hq]
      apply ih
      simp only [List.any_cons, hq] at h
      simpa using h

theorem find?_append_new (u : String) (b : Int) :
    ∀ (accounts : List (String × Int)), accounts.any (fun p => p.1 == u) = false →
    (accounts ++ [(u, b)]).find? (fun p => p.1 == u) = some (u, b) := by
  intro accounts
  induction accounts with
  | nil => simp [List.find?]
  | cons q qs ih =>
    intro h
    simp only [List.any_cons, Bool.or_eq_false_iff] at h
    rw [List.cons_append, List.find?]
    simp only [h.1]
    exact ih h.2

theorem lookupAccount_setAccount (accounts : List (String × Int)) (u : String) (b : Int) :
    (setAccount accounts u b).find? (fun p => p.1 == u) = some (u, b) := by
  unfold setAccount
  by_cases h : accounts.any (fun p => p.1 == u)
  · rw [if_pos h]
    exact find?_map_update u b accounts h
  · rw [if_neg h]
    exact find?_append_new u b accounts
      (by revert h; cases accounts.any (fun p => p.1 == u) <;> simp)

theorem lookupAccount_recalculate (st : EngineState) (u : String) (now : Nat) :
    lookupAccount (recalculate_effective_balance st u now).1 u
      = some (ledgerSum st.ledger u now) := by
  unfold recalculate_effective_balance lookupAccount
  simp only
  rw [lookupAccount_setAccount]
  rfl

theorem ledger_recalculate (st : EngineState) (u : String) (now : Nat) :
    (recalculate_effective_balance st u now).1.ledger = st.ledger := by
  unfold recalculate_effective_balance
  simp only
  rw [ledger_get_or_create]

theorem nextId_recalculate (st : EngineState) (u : String) (now : Nat) :
    (recalculate_effective_balance st u now).1.nextId = st.nextId := by
  unfold recalculate_effective_balance
  simp only
  rw [nextId_get_or_create]

/-- Claim C4 — `recalculate_effective_balance` returns the sum of ledger
deltas over exactly the rows whose `expires_at` is null or strictly greater
than `now`, writes it into the credit account (creating the account if it
was absent), leaves the ledger unchanged, and applying it twice with the
same `now` and unchanged ledger yields the same balance. -/
theorem recalculate_effective_balance_spec (st : EngineState) (u : String) (now : Nat) :
    (recalculate_effective_balance st u now).2 =
      ((st.ledger.filter (fun r => r.userId == u &&
        (r.expiresAt.elim true (fun e => decide (now < e))))).map (fun r => r.delta)).sum ∧
    lookupAccount (recalculate_effective_balance st u now).1 u
      = some ((recalculate_effective_balance st u now).2) ∧
    (recalculate_effective_balance st u now).1.ledger = st.ledger ∧
    (recalculate_effective_balance
        (recalculate_effective_balance st u now).1 u now).2
      = (recalculate_effective_balance st u now).2 := by
  refine ⟨?_, ?_, ledger_recalculate st u now, ?_⟩
  · show ledgerSum st.ledger u now = _
    unfold ledgerSum
    congr 1
    apply congrArg
    apply List.filter_congr
    intro r _
    cases hr : r.expiresAt <;> simp [notExpired, hr]
  · have h := lookupAccount_recalculate st u now
    rw [h]
    rfl
  · show ledgerSum (recalculate_effective_balance st u now).1.ledger u now
        = ledgerSum st.ledger u now
    rw [ledger_recalculate]

/-- Claim C10 — `spend_credits_for_job` with a non-positive amount returns
immediately with the state untouched: no ledger row is appended, no account
is created or modified, the cached balance is unchanged. -/
theorem spend_credits_nonpositive_noop (st : EngineState) (u : String) (amount : Int)
    (jobId : Nat) (source : String) (now : Nat) (h : amount ≤ 0) :
    spend_credits_for_job st u amount jobId source now = .ok st := by
  unfold spend_credits_for_job
  rw [if_pos h]

/-- Witness for C10 at a concrete state and amount 0. -/
theorem spend_credits_nonpositive_noop_witness :
    (0 : Int) ≤ 0 ∧
    spend_credits_for_job
      ⟨[⟨1, "u1", some "A", "grant_monthly", 20, "s1", none, 0, some 30⟩], [("u1", 20)], 2⟩
      "u1" 0 7 "job" 5 =
      .ok ⟨[⟨1, "u1", some "A", "grant_monthly", 20, "s1", none, 0, some 30⟩], [("u1", 20)], 2⟩ :=
  ⟨le_refl 0,
   spend_credits_nonpositive_noop
     ⟨[⟨1, "u1", some "A", "grant_monthly", 20, "s1", none, 0, some 30⟩], [("u1", 20)], 2⟩
     "u1" 0 7 "job" 5 (le_refl 0)⟩

theorem sortedLots_sorted (ledger : List LedgerRow) (u : String) (now : Nat) :
    List.Sorted lotRel (sortedLots ledger u now) :=
  List.sorted_insertionSort lotRel _

theorem sortedLots_perm (ledger : List LedgerRow) (u : String) (now : Nat) :
    (sortedLots ledger u now).Perm (candidateLots ledger u now) :=
  List.perm_insertionSort lotRel _

theorem mem_candidateLots {ledger : List LedgerRow} {u : String} {now : Nat}
    {r : LedgerRow} (h : r ∈ candidateLots ledger u now) :
    r ∈ ledger ∧ r.userId = u ∧ 0 < r.delta ∧ notExpired now r = true := by
  unfold candidateLots at h
  rw [List.mem_filter] at h
  obtain ⟨h1, h2⟩ := h
  simp only [Bool.and_eq_true, beq_iff_eq, decide_eq_true_eq] at h2
  exact ⟨h1, h2.1.1, h2.1.2, h2.2⟩

theorem foldl_spendStep_spec (L : List LedgerRow) (u source : String) (jobId now : Nat) :
    ∀ (lots : List LedgerRow) (acc : SpendAcc),
    ∃ extra : List LedgerRow,
      (lots.foldl (spendStep L u source jobId now) acc).newRows = acc.newRows ++ extra ∧
      ((extra.map fun r => (r.lotId, r.expiresAt)).Sublist
        (lots.map fun l => (l.lotId, l.expiresAt))) ∧
      (∀ r ∈ extra, r.eventType = "spend" ∧ r.userId = u ∧ r.jobId = some jobId ∧
        r.createdAt = now ∧
        (∃ lot ∈ lots, r.lotId = lot.lotId ∧ r.expiresAt = lot.expiresAt) ∧
        (∃ lid need, r.lotId = some lid ∧ 0 < need ∧ need ≤ acc.remaining ∧
          0 < min (lotRemaining L u lid) need ∧
          r.delta = -(min (lotRemaining L u lid) need))) ∧
      (lots.foldl (spendStep L u source jobId now) acc).remaining
        = acc.remaining + (extra.map fun r => r.delta).sum := by
  intro lots
  induction lots with
  | nil =>
    intro acc
    exact ⟨[], by simp, by simp, by simp, by simp⟩
  | cons lot rest ih =>
    intro acc
    rw [List.foldl_cons]
    by_cases h0 : acc.remaining ≤ 0
    · have hstep : spendStep L u source jobId now acc lot = acc := by
        unfold spendStep
        rw [if_pos h0]
      rw [hstep]
      obtain ⟨extra, e1, e2, e3, e4⟩ := ih acc
      refine ⟨extra, e1, e2.cons _, ?_, e4⟩
      intro r hr
      obtain ⟨p1, p2, p3, p4, ⟨lot', hlot', hp⟩, p6⟩ := e3 r hr
      exact ⟨p1, p2, p3, p4, ⟨lot', List.mem_cons_of_mem _ hlot', hp⟩, p6⟩
    · rcases hlid : lot.lotId with _ | lid
      · have hstep : spendStep L u source jobId now acc lot = acc := by
          unfold spendStep
          rw [if_neg h0, hlid]
        rw [hstep]
        obtain ⟨extra, e1, e2, e3, e4⟩ := ih acc
        refine ⟨extra, e1, e2.cons _, ?_, e4⟩
        intro r hr
        obtain ⟨p1, p2, p3, p4, ⟨lot', hlot', hp⟩, p6⟩ := e3 r hr
        exact ⟨p1, p2, p3, p4, ⟨lot', List.mem_cons_of_mem _ hlot', hp⟩, p6⟩
      · by_cases hempty : lid = ""
        · have hstep : spendStep L u source jobId now acc lot = acc := by
            unfold spendStep
            rw [if_neg h0, hlid]
            simp only [if_pos hempty]
          rw [hstep]
          obtain ⟨extra, e1, e2, e3, e4⟩ := ih acc
          refine ⟨extra, e1, e2.cons _, ?_, e4⟩
          intro r hr
          obtain ⟨p1, p2, p3, p4, ⟨lot', hlot', hp⟩, p6⟩ := e3 r hr
          exact ⟨p1, p2, p3, p4, ⟨lot', List.mem_cons_of_mem _ hlot', hp⟩, p6⟩
        · by_cases htot : lotRemaining L u lid ≤ 0
          · have hstep : spendStep L u source jobId now acc lot = acc := by
              unfold spendStep
              rw [if_neg h0, hlid]
              simp only [if_neg hempty, if_pos htot]
            rw [hstep]
            obtain ⟨extra, e1, e2, e3, e4⟩ := ih acc
            refine ⟨extra, e1, e2.cons _, ?_, e4⟩
            intro r hr
            obtain ⟨p1, p2, p3, p4, ⟨lot', hlot', hp⟩, p6⟩ := e3 r hr
            exact ⟨p1, p2, p3, p4, ⟨lot', List.mem_cons_of_mem _ hlot', hp⟩, p6⟩
          · -- the consuming branch
            have hrem : 0 < acc.remaining := not_le.mp h0
            have hlt : 0 < lotRemaining L u lid := not_le.mp htot
            have huse : 0 < min (lotRemaining L u lid) acc.remaining :=
              lt_min hlt hrem
            have hstep : spendStep L u source jobId now acc lot =
                { remaining := acc.remaining - min (lotRemaining L u lid) acc.remaining,
                  newRows := acc.newRows ++
                    [{ id := acc.nid, userId := u, lotId := some lid, eventType := "spend",
                       delta := -(min (lotRemaining L u lid) acc.remaining), source := source,
                       jobId := some jobId, createdAt := now, expiresAt := lot.expiresAt }],
                  nid := acc.nid + 1 } := by
              unfold spendStep
              rw [if_neg h0, hlid]
              simp only [if_neg hempty, if_neg htot]
            rw [hstep]
            obtain ⟨extra, e1, e2, e3, e4⟩ := ih
              { remaining := acc.remaining - min (lotRemaining L u lid) acc.remaining,
                newRows := acc.newRows ++
                  [{ id := acc.nid, userId := u, lotId := some lid, eventType := "spend",
                     delta := -(min (lotRemaining L u lid) acc.remaining), source := source,
                     jobId := some jobId, createdAt := now, expiresAt := lot.expiresAt }],
                nid := acc.nid + 1 }
            refine ⟨{ id := acc.nid, userId := u, lotId := some lid, eventType := "spend",
                      delta := -(min (lotRemaining L u lid) acc.remaining), source := source,
                      jobId := some jobId, createdAt := now,
                      expiresAt := lot.expiresAt } :: extra, ?_, ?_, ?_, ?_⟩
            · rw [e1]
              simp
            · simp only [List.map_cons]
              rw [hlid]
              exact e2.cons₂ _
            · intro r hr
              rcases List.mem_cons.mp hr with hr | hr
              · subst hr
                refine ⟨rfl, rfl, rfl, rfl, ⟨lot, List.mem_cons_self _ _, by rw [hlid], rfl⟩,
                  ⟨lid, acc.remaining, rfl, hrem, le_refl _, huse, rfl⟩⟩
              · obtain ⟨p1, p2, p3, p4, ⟨lot', hlot', hp⟩, lid', need', q1, q2, q3, q4, q5⟩ :=
                  e3 r hr
                refine ⟨p1, p2, p3, p4, ⟨lot', List.mem_cons_of_mem _ hlot', hp⟩,
                  ⟨lid', need', q1, q2, ?_, q4, q5⟩⟩
                simp only at q3
                omega
            · rw [e4]
              simp only [List.map_cons, List.sum_cons]
              omega

theorem spend_credits_eq (st : EngineState) (u : String) (amount : Int)
    (jobId : Nat) (source : String) (now : Nat) (h0 : ¬ amount ≤ 0)
    (hcov : ¬ ((recalculate_effective_balance
      (get_or_create_credit_account st u).1 u now).2 < amount)) :
    spend_credits_for_job st u amount jobId source now =
      (let st2 := (recalculate_effective_balance
          (get_or_create_credit_account st u).1 u now).1
       let lots := sortedLots st2.ledger u now
       let res := lots.foldl (spendStep st2.ledger u source jobId now)
         ⟨amount, [], st2.nextId⟩
       if res.remaining ≠ 0 then .error "insufficient_credits"
       else .ok { ledger := st2.ledger ++ res.newRows,
                  accounts := setAccount st2.accounts u
                    ((lookupAccount st2 u).getD 0 - amount),
                  nextId := res.nid }) := by
  simp only [spend_credits_for_job]
  rw [if_neg h0, if_neg hcov]

/-- Claim C3 — for `spend(user, amount, job_id)` with `0 < amount` not above
the effective balance, lots are consumed soonest-to-expire first: the lot
list is the positive non-expired rows sorted by
`(expires_at ASC NULLS LAST, created_at ASC, id ASC)`; each appended row is
a negative `spend` row carrying the consumed lot's `lot_id` and `expires_at`
and a delta of `-min(lot_remaining, outstanding need)`; expired lots are
never consumed; the appended rows together cover `amount` exactly on
success, the cached balance becomes `effective - amount`, and if need
remains after the loop the call raises `insufficient_credits`. -/
theorem spend_credits_fifo (st : EngineState) (u : String) (amount : Int)
    (jobId now : Nat) (h0 : 0 < amount)
    (hcov : amount ≤ ledgerSum st.ledger u now) :
    List.Sorted lotRel (sortedLots st.ledger u now) ∧
    (sortedLots st.ledger u now).Perm (candidateLots st.ledger u now) ∧
    (∀ e, spend_credits_for_job st u amount jobId "job" now = .error e →
      e = "insufficient_credits") ∧
    (∀ st', spend_credits_for_job st u amount jobId "job" now = .ok st' →
      ∃ newRows,
        st'.ledger = st.ledger ++ newRows ∧
        ((newRows.map fun r => (r.lotId, r.expiresAt)).Sublist
          ((sortedLots st.ledger u now).map fun l => (l.lotId, l.expiresAt))) ∧
        (∀ r ∈ newRows, r.eventType = "spend" ∧ r.userId = u ∧ r.jobId = some jobId ∧
          r.delta < 0 ∧
          (∃ lot, lot ∈ st.ledger ∧ lot.userId = u ∧ 0 < lot.delta ∧
            notExpired now lot = true ∧ r.lotId = lot.lotId ∧
            r.expiresAt = lot.expiresAt) ∧
          (∃ lid need, r.lotId = some lid ∧ 0 < need ∧ need ≤ amount ∧
            r.delta = -(min (lotRemaining st.ledger u lid) need))) ∧
        ((newRows.map fun r => r.delta).sum = -amount) ∧
        lookupAccount st' u = some (ledgerSum st.ledger u now - amount)) := by
  have hL1 : ((get_or_create_credit_account st u).1).ledger = st.ledger :=
    ledger_get_or_create st u
  have heff : (recalculate_effective_balance
      (get_or_create_credit_account st u).1 u now).2 = ledgerSum st.ledger u now := by
    show ledgerSum ((get_or_create_credit_account st u).1).ledger u now = _
    rw [hL1]
  have hL2 : (recalculate_effective_balance
      (get_or_create_credit_account st u).1 u now).1.ledger = st.ledger := by
    rw [ledger_recalculate, hL1]
  have hncov : ¬ ((recalculate_effective_balance
      (get_or_create_credit_account st u).1 u now).2 < amount) := by
    rw [heff]
    exact not_lt.mpr hcov
  have heq := spend_credits_eq st u amount jobId "job" now (not_le.mpr h0) hncov
  simp only at heq
  refine ⟨sortedLots_sorted st.ledger u now, sortedLots_perm st.ledger u now, ?_, ?_⟩
  · intro e herr
    rw [heq] at herr
    split at herr
    · exact (Except.error.injEq _ _).mp herr |>.symm ▸ rfl
    · exact Except.noConfusion herr
  · intro st' hok
    rw [heq] at hok
    rw [hL2] at hok
    obtain ⟨extra, e1, e2, e3, e4⟩ := foldl_spendStep_spec st.ledger u "job" jobId now
      (sortedLots st.ledger u now)
      ⟨amount, [],
        (recalculate_effective_balance (get_or_create_credit_account st u).1 u now).1.nextId⟩
    split at hok
    · exact Except.noConfusion hok
    · rename_i hrem
      have hok' := (Except.ok.injEq _ _).mp hok
      subst hok'
      refine ⟨extra, ?_, ?_, ?_, ?_, ?_⟩
      · simp only
        rw [e1]
        simp
      · exact e2
      · intro r hr
        obtain ⟨p1, p2, p3, p4, ⟨lot', hlot', hp1, hp2⟩, lid, need, q1, q2, q3, q4, q5⟩ :=
          e3 r hr
        have hlotmem := (sortedLots_perm st.ledger u now).subset hlot'
        obtain ⟨hm1, hm2, hm3, hm4⟩ := mem_candidateLots hlotmem
        refine ⟨p1, p2, p3, ?_, ⟨lot', hm1, hm2, hm3, hm4, hp1, hp2⟩,
          ⟨lid, need, q1, q2, by simpa using q3, q5⟩⟩
        omega
      · have hrem0 : (List.foldl (spendStep st.ledger u "job" jobId now)
            { remaining := amount, newRows := [],
              nid := (recalculate_effective_balance
                (get_or_create_credit_account st u).1 u now).1.nextId }
            (sortedLots st.ledger u now)).remaining = 0 := by
          by_contra hc
          exact hrem hc
        rw [hrem0] at e4
        simp only at e4
        omega
      · have hacct := lookupAccount_recalculate
          (get_or_create_credit_account st u).1 u now
        rw [hL1] at hacct
        rw [hacct]
        simp only [Option.getD_some, lookupAccount]
        rw [lookupAccount_setAccount]
        rfl

/-- Lot A of the spec's FIFO scenario: `+5`, expiring soonest. -/
def exRowA : LedgerRow := ⟨1, "u1", some "A", "grant_monthly", 5, "sA", none, 0, some 1⟩

/-- Lot B of the spec's FIFO scenario: `+100`, expiring later. -/
def exRowB : LedgerRow := ⟨2, "u1", some "B", "topup", 100, "sB", none, 0, some 30⟩

/-- Engine state with lots A and B on the ledger. -/
def exStateAB : EngineState := ⟨[exRowA, exRowB], [("u1", 105)], 3⟩

/-- Witness for C3 — spending 7 against lots A (+5, sooner) and B (+100)
yields spend rows `-5` against A then `-2` against B and balance 98. -/
theorem spend_credits_fifo_witness :
    ((0 : Int) < 7 ∧ (7 : Int) ≤ ledgerSum exStateAB.ledger "u1" 0) ∧
    (List.Sorted lotRel (sortedLots exStateAB.ledger "u1" 0) ∧
     (sortedLots exStateAB.ledger "u1" 0).Perm (candidateLots exStateAB.ledger "u1" 0) ∧
     (∀ e, spend_credits_for_job exStateAB "u1" 7 1 "job" 0 = .error e →
       e = "insufficient_credits") ∧
     (∀ st', spend_credits_for_job exStateAB "u1" 7 1 "job" 0 = .ok st' →
       ∃ newRows,
         st'.ledger = exStateAB.ledger ++ newRows ∧
         ((newRows.map fun r => (r.lotId, r.expiresAt)).Sublist
           ((sortedLots exStateAB.ledger "u1" 0).map fun l => (l.lotId, l.expiresAt))) ∧
         (∀ r ∈ newRows, r.eventType = "spend" ∧ r.userId = "u1" ∧ r.jobId = some 1 ∧
           r.delta < 0 ∧
           (∃ lot, lot ∈ exStateAB.ledger ∧ lot.userId = "u1" ∧ 0 < lot.delta ∧
             notExpired 0 lot = true ∧ r.lotId = lot.lotId ∧
             r.expiresAt = lot.expiresAt) ∧
           (∃ lid need, r.lotId = some lid ∧ 0 < need ∧ need ≤ 7 ∧
             r.delta = -(min (lotRemaining exStateAB.ledger "u1" lid) need))) ∧
         ((newRows.map fun r => r.delta).sum = -7) ∧
         lookupAccount st' "u1" = some (ledgerSum exStateAB.ledger "u1" 0 - 7))) ∧
    ((spend_credits_for_job exStateAB "u1" 7 1 "job" 0).toOption.map
        (fun st' => (st'.ledger, lookupAccount st' "u1")) =
      some ([exRowA, exRowB,
             ⟨3, "u1", some "A", "spend", -5, "job", some 1, 0, some 1⟩,
             ⟨4, "u1", some "B", "spend", -2, "job", some 1, 0, some 30⟩], some 98)) := by
  refine ⟨⟨by decide, by decide⟩,
    spend_credits_fifo exStateAB "u1" 7 1 0 (by decide) (by decide), ?_⟩
  decide

end Credits

namespace Rules

open PyStr

/-- ASCII model of the regex word character class backslash-w. -/
def isWordChar (c : Char) : Bool := c.isAlphanum || c = '_'

/-- Token of a title pattern: a literal character run, or a run of one or
more whitespace characters (the regexes in decision_maker_rules.py are all
alternations of word-bounded literals separated by whitespace runs). -/
inductive RTok where
  | lit : List Char → RTok
  | ws : RTok

/-- Case-insensitive character comparison (`re.IGNORECASE`, ASCII model). -/
def charMatches (p c : Char) : Bool := p.toLower = c.toLower

def matchLit : List Char → List Char → Option (List Char)
  | [], s => some s
  | _ :: _, [] => none
  | p :: ps, c :: cs => if charMatches p c then matchLit ps cs else none

def matchToks : List RTok → List Char → Option (List Char)
  | [], s => some s
  | .lit p :: ts, s => (matchLit p s).bind (matchToks ts)
  | .ws :: ts, s =>
    match s with
    | [] => none
    | c :: cs => if isPyWS c then matchToks ts (cs.dropWhile isPyWS) else none

/-- The closing word boundary: the rest of the input must not continue with
a word character. -/
def boundaryAfter : List Char → Bool
  | [] => true
  | c :: _ => !isWordChar c

/-- Does the pattern match at exactly this position (with closing boundary)? -/
def matchHere (toks : List RTok) (s : List Char) : Bool :=
  match matchToks toks s with
  | some rest => boundaryAfter rest
  | none => false

/-- Scan the input; a match may start wherever the previous character is not
a word character (the opening word boundary). -/
def reSearchAux (toks : List RTok) : Bool → List Char → Bool
  | _, [] => false
  | prevWord, c :: cs =>
    (!prevWord && matchHere toks (c :: cs)) || reSearchAux toks (isWordChar c) cs

/-- Model of `re.search` for one word-bounded alternative. -/
def reSearch (toks : List RTok) (s : List Char) : Bool := reSearchAux toks false s

/-- Model of `re.search` for an alternation of word-bounded alternatives. -/
def reAny (rx : List (List RTok)) (s : List Char) : Bool := rx.any (fun t => reSearch t s)

def w (s : String) : RTok := .lit s.data

/-- The `_NEGATIVE_PATTERNS` list (decision_maker_rules.py lines 6-19). -/
def NEGATIVE_PATTERNS : List (List (List RTok)) :=
  [ [[w "assistant"]], [[w "intern"]], [[w "coordinator"]], [[w "receptionist"]],
    [[w "clerk"]], [[w "technician"]], [[w "support"]],
    [[w "customer", RTok.ws, w "service"]],
    [[w "representative"]], [[w "specialist"]], [[w "associate"]], [[w "staff"]] ]

/-- The `_POSITIVE_PATTERNS` priority list (decision_maker_rules.py lines 21-45). -/
def POSITIVE_PATTERNS : List (String × List (List RTok)) :=
  [ ("CEO", [[w "CEO"], [w "Chief", RTok.ws, w "Executive", RTok.ws, w "Officer"]]),
    ("COO", [[w "COO"], [w "Chief", RTok.ws, w "Operating", RTok.ws, w "Officer"]]),
    ("CFO", [[w "CFO"], [w "Chief", RTok.ws, w "Financial", RTok.ws, w "Officer"]]),
    ("CTO", [[w "CTO"], [w "Chief", RTok.ws, w "Technology", RTok.ws, w "Officer"]]),
    ("CIO", [[w "CIO"], [w "Chief", RTok.ws, w "Information", RTok.ws, w "Officer"]]),
    ("CMO", [[w "CMO"], [w "Chief", RTok.ws, w "Marketing", RTok.ws, w "Officer"]]),
    ("Chief", [[w "Chief"]]),
    ("Founder", [[w "co-founder"], [w "co founder"], [w "cofounder"], [w "founder"]]),
    ("Owner", [[w "owner"]]),
    ("President", [[w "president"]]),
    ("Managing Director", [[w "managing", RTok.ws, w "director"]]),
    ("General Manager", [[w "general", RTok.ws, w "manager"]]),
    ("Senior Head", [[w "senior", RTok.ws, w "head"]]),
    ("Head", [[w "head"], [w "head", RTok.ws, w "of"]]),
    ("Senior Director", [[w "senior", RTok.ws, w "director"]]),
    ("Director", [[w "director"]]),
    ("Senior Vice President",
      [[w "senior", RTok.ws, w "vice", RTok.ws, w "president"], [w "SVP"]]),
    ("Vice President", [[w "vice", RTok.ws, w "president"], [w "VP"]]),
    ("Chairman", [[w "chairman"], [w "chair"]]),
    ("Managing Partner", [[w "managing", RTok.ws, w "partner"]]),
    ("Managing Member", [[w "managing", RTok.ws, w "member"]]),
    ("Partner", [[w "partner"]]),
    ("Principal", [[w "principal"]]) ]

/-- Does any negative pattern match the (already stripped) title? -/
def anyNegative (t : String) : Bool := NEGATIVE_PATTERNS.any (fun rx => reAny rx t.data)

/-- Model of `is_decision_maker_title` (decision_maker_rules.py lines 48-61). -/
def is_decision_maker_title (title : String) : Bool × String :=
  let t := pyStrip title
  if t = "" then (false, "")
  else if anyNegative t then (false, "")
  else
    match POSITIVE_PATTERNS.find? (fun p => reAny p.2 t.data) with
    | some p => (true, p.1)
    | none => (false, "")

/-- Model of `decision_maker_query_keywords` (decision_maker_rules.py
lines 64-91). -/
def decision_maker_query_keywords : List String :=
  [ "CEO", "Founder", "\"Co-Founder\"", "Owner", "President",
    "\"Managing Director\"", "\"General Manager\"", "\"Senior Head\"",
    "\"Head of\"", "\"Senior Director\"", "Director",
    "\"Senior Vice President\"", "\"Vice President\"", "SVP", "VP",
    "COO", "CFO", "CTO", "CIO", "CMO", "Partner", "Principal",
    "\"Managing Partner\"", "\"Managing Member\"", "Chairman" ]

/-- Model of `title_matches_keywords` (decision_maker_rules.py lines 143-157). -/
def title_matches_keywords (title : String) (keywords : List String) : Bool :=
  let t := pyStrip title
  if t = "" then false
  else if anyNegative t then false
  else
    let kw := (keywords.map pyStrip).filter (fun k => k ≠ "")
    if kw = [] then false
    else kw.any (fun k => containsStr (pyLower t) (pyLower k))

theorem title_matches_keywords_stripped_nonempty {title : String} {kws : List String}
    (h : title_matches_keywords title kws = true) : pyStrip title ≠ "" := by
  intro hempty
  unfold title_matches_keywords at h
  rw [hempty] at h
  simp at h

theorem title_matches_keywords_no_negative {title : String} {kws : List String}
    (h : title_matches_keywords title kws = true) :
    anyNegative (pyStrip title) = false := by
  unfold title_matches_keywords at h
  by_cases h1 : pyStrip title = ""
  · rw [h1] at h
    simp at h
  · by_cases h2 : anyNegative (pyStrip title) = true
    · rw [if_neg h1, if_pos h2] at h
      simp at h
    · simpa using h2

end Rules

namespace Runner

open PyStr

/-- Model of `_text` (jobs.py lines 51-52) on a string field: `str(raw or
"").strip()`; a missing/None field is modelled by the empty string. -/
def pyText (s : String) : String := pyStrip s

/-- Model of `_non_empty` (jobs.py lines 54-56). -/
def pyNonEmpty (s dflt : String) : String :=
  if pyText s = "" then dflt else pyText s

/-- One person candidate returned by the research pipeline (`results` item);
a missing string field is modelled by `""`, the optionally-absent `platform`
key by `Option`. -/
structure Candidate where
  name : String
  title : String
  profile_url : String
  platform : Option String
  confidence : String
  deriving Repr, DecidableEq

/-- The row data the batch loop reads from a `_scrape_one` result: the
resolved company fields and the candidate list. -/
structure RowResult where
  companyName : String
  companyType : String
  companyCity : String
  companyCountry : String
  companyWebsite : String
  results : List Candidate
  deriving Repr, DecidableEq

/-- The fields of a persisted DecisionMaker row the claims are about
(jobs.py lines 818-841). -/
structure DMRow where
  name : String
  title : String
  platform : String
  profileUrl : String
  deriving Repr, DecidableEq

/-- The query keywords of `_process_job_task` (jobs.py lines 485-487):
normalised `job_titles[:5]` when non-empty, else the first five default
query keywords. -/
def runnerQueryKeywords (jobTitles : List String) : List String :=
  let jt := (jobTitles.map pyStrip).filter (fun x => x ≠ "")
  if jt.isEmpty then Rules.decision_maker_query_keywords.take 5 else jt.take 5

/-- Candidate validation of the batch loop (jobs.py lines 716-741): title
gate, placeholder-name filter, hallucinated-name filter, hallucinated
profile-URL filter. -/
def validCandidate (kw : List String) (res : Candidate) : Bool :=
  let titleCandidate := pyText res.title
  let okTitle :=
    if kw.isEmpty then (Rules.is_decision_maker_title titleCandidate).1
    else Rules.title_matches_keywords titleCandidate kw
  if !okTitle then false
  else
    let nameCandidate := pyText res.name
    if nameCandidate = "" then false
    else if ["unknown", "n/a", "na", "-"].contains (pyLower (pyStrip nameCandidate)) then
      false
    else if ["john doe", "jane doe"].contains (pyLower (pyStrip nameCandidate)) then false
    else
      let profUrl := pyLower (pyText res.profile_url)
      if containsStr profUrl "linkedin.com/in/johndoe" ||
          containsStr profUrl "linkedin.com/in/janedoe" then false
      else true

/-- The DecisionMaker row persisted for a validated candidate (jobs.py
lines 755-841, restricted to the person fields). -/
def mkDM (res : Candidate) : DMRow :=
  { name := pyNonEmpty (pyText res.name) "Unknown",
    title := pyNonEmpty (pyText res.title) "Unknown",
    platform := (match res.platform with
      | none => "Web"
      | some p => pyNonEmpty p "Web"),
    profileUrl := pyText res.profile_url }

/-- The keyword parameters accepted by the engine's `spend_credits_for_job`
(credits_engine.py lines 111-118): `user_id, amount, job_id, source, now`
(plus the positional session). -/
def spend_credits_for_job_kwparams : List String :=
  ["user_id", "amount", "job_id", "source", "now"]

/-- The keyword arguments the Job Runner passes at the call site
(jobs.py line 745): note `commit`, which the engine does not accept. -/
def runner_spend_call_kwargs : List String :=
  ["user_id", "amount", "job_id", "commit"]

/-- Python keyword binding for the spend call: if any keyword argument is
not a parameter of the callee, the call raises `TypeError` before the
callee body runs; otherwise the engine function executes. -/
def call_spend_credits_with_kwargs (kwargs : List String) (st : Credits.EngineState)
    (u : String) (amount : Int) (jobId : Nat) (now : Nat) :
    Except String Credits.EngineState :=
  if kwargs.all (fun k => spend_credits_for_job_kwparams.contains k) then
    Credits.spend_credits_for_job st u amount jobId "job" now
  else .error "TypeError: unexpected keyword argument"

inductive JobStatus where
  | queued
  | processing
  | completed
  | failed
  | cancelled
  deriving Repr, DecidableEq

/-- The job fields the per-row claims touch. -/
structure JobState where
  id : Nat
  userId : String
  status : JobStatus
  stopReason : Option String
  processedCompanies : Nat
  decisionMakersFound : Nat
  creditsSpent : Int
  deriving Repr, DecidableEq

/-- The Runner's state while draining rows: the job row, the credits-engine
state, the persisted DecisionMakers, a count of spend attempts (incremented
exactly at the call site), and the abort flag of the batch loop. -/
structure RunnerState where
  job : JobState
  eng : Credits.EngineState
  dms : List DMRow
  spendAttempts : Nat
  abort : Bool
  deriving Repr, DecidableEq

/-- The usability test guarding candidate persistence and the spend
(jobs.py lines 693-697): resolved `company_name` non-empty AND any of
country/city/website non-empty. -/
def usableCompany (out : RowResult) : Bool :=
  out.companyName != "" &&
    (out.companyCountry != "" || out.companyCity != "" || out.companyWebsite != "")

/-- Processing of one row result inside the batch loop (jobs.py lines
693-853): build `valid_results`, attempt the 1-credit spend for a usable
company (aborting the job as `credits_exhausted` when the call raises),
then persist the validated candidates and bump the counters. -/
def processRowOut (kw : List String) (creditsPerCompany : Int) (now : Nat)
    (s : RunnerState) (out : RowResult) : RunnerState :=
  if s.abort = true then s
  else if usableCompany out = true then
    match call_spend_credits_with_kwargs runner_spend_call_kwargs s.eng s.job.userId
        creditsPerCompany s.job.id now with
    | .error _ =>
      { s with
        job := { s.job with
          stopReason := some "credits_exhausted"
          status := .completed }
        spendAttempts := s.spendAttempts + 1
        abort := true }
    | .ok engAfter =>
      { job := { s.job with
          creditsSpent := s.job.creditsSpent + creditsPerCompany
          decisionMakersFound := s.job.decisionMakersFound +
            (out.results.filter (validCandidate kw)).length
          processedCompanies := s.job.processedCompanies + 1 }
        eng := engAfter
        dms := s.dms ++ (out.results.filter (validCandidate kw)).map mkDM
        spendAttempts := s.spendAttempts + 1
        abort := s.abort }
  else
    { s with job := { s.job with processedCompanies := s.job.processedCompanies + 1 } }

/-- Drain a list of row results through the batch loop. -/
def processRows (kw : List String) (cpc : Int) (now : Nat) (s : RunnerState)
    (outs : List RowResult) : RunnerState :=
  outs.foldl (processRowOut kw cpc now) s

/-- The epilogue of `_process_job_task` (jobs.py lines 860-862): a job still
`processing` after the drain becomes `completed`. -/
def finishJob (s : RunnerState) : RunnerState :=
  if s.job.status = .processing then
    { s with job := { s.job with status := .completed } }
  else s

/-- Run the per-row section of the Job Runner over the given row results. -/
def runJobRows (kw : List String) (cpc : Int) (now : Nat) (s : RunnerState)
    (outs : List RowResult) : RunnerState :=
  finishJob (processRows kw cpc now s outs)

end Runner

namespace Runner

/-- Engine state of a trial user: one monthly grant of 20 credits in lot A,
cached balance 20. -/
def exTrialEngine : Credits.EngineState :=
  ⟨[⟨1, "u1", some "A", "grant_monthly", 20, "s1", none, 0, some 30⟩], [("u1", 20)], 2⟩

/-- A processing job of the trial user with all counters at zero. -/
def exJob0 : JobState := ⟨1, "u1", .processing, none, 0, 0, 0⟩

/-- Runner state at the start of the drain. -/
def exState0 : RunnerState := ⟨exJob0, exTrialEngine, [], 0, false⟩

/-- A valid candidate: leadership title, real name, clean profile URL. -/
def exAlice : Candidate :=
  ⟨"Alice Stone", "CEO", "https://linkedin.com/in/alice-stone", some "linkedin", "HIGH"⟩

/-- A usable resolved row for company Acme with one valid candidate. -/
def exRowAcme : RowResult := ⟨"Acme", "", "New York", "United States", "", [exAlice]⟩

/-- The hallucination fixture: candidate name John Doe with the
`linkedin.com/in/johndoe` profile URL. -/
def exJohnDoe : Candidate :=
  ⟨"John Doe", "CEO", "https://linkedin.com/in/johndoe", some "linkedin", "HIGH"⟩

/-- A usable resolved row whose only candidate is the hallucination. -/
def exRowHallucinated : RowResult := ⟨"Acme", "", "New York", "", "", [exJohnDoe]⟩

/-- A row whose resolved company has a name but no country, city or
website. -/
def exRowNameOnly : RowResult := ⟨"Acme", "", "", "", "", [exAlice]⟩

/-- A candidate whose title contains "ceo" only as a fragment of a longer
word: accepted by substring keyword matching, rejected by the
word-boundary classifier. -/
def exCeoxyz : Candidate :=
  ⟨"Alice Stone", "Ceoxyz", "https://linkedin.com/in/alice-stone", some "linkedin", "HIGH"⟩

/-- Claim C1 (evaluation at the failing input) — the Job Runner's spend call
passes keyword `commit`, which `spend_credits_for_job` does not accept, so
the call raises `TypeError` before the engine body runs; the runner's bare
`except` treats this as credits exhaustion.  For the trial user with
balance 20 and one usable row yielding one valid candidate, the job ends
`completed` with `stop_reason=credits_exhausted`, `credits_spent=0`,
`processed_companies=0`, `decision_makers_found=0`, no DecisionMaker rows,
no ledger change, and balance still 20 — not the spend success the claim
describes. -/
theorem runner_spend_call_typeerror :
    (runner_spend_call_kwargs.all
      (fun k => spend_credits_for_job_kwparams.contains k)) = false ∧
    (call_spend_credits_with_kwargs runner_spend_call_kwargs exTrialEngine
      "u1" 1 1 0).isOk = false ∧
    Credits.ledgerSum exTrialEngine.ledger "u1" 0 = 20 ∧
    exRowAcme.results.filter (validCandidate (runnerQueryKeywords ["CEO"])) = [exAlice] ∧
    ((runJobRows (runnerQueryKeywords ["CEO"]) 1 0 exState0 [exRowAcme]).job.status
        = .completed ∧
     (runJobRows (runnerQueryKeywords ["CEO"]) 1 0 exState0 [exRowAcme]).job.stopReason
        = some "credits_exhausted" ∧
     (runJobRows (runnerQueryKeywords ["CEO"]) 1 0 exState0 [exRowAcme]).job.creditsSpent
        = 0 ∧
     (runJobRows (runnerQueryKeywords ["CEO"]) 1 0 exState0 [exRowAcme]).job.processedCompanies
        = 0 ∧
     (runJobRows (runnerQueryKeywords ["CEO"]) 1 0 exState0 [exRowAcme]).job.decisionMakersFound
        = 0 ∧
     (runJobRows (runnerQueryKeywords ["CEO"]) 1 0 exState0 [exRowAcme]).dms = [] ∧
     (runJobRows (runnerQueryKeywords ["CEO"]) 1 0 exState0 [exRowAcme]).eng
        = exTrialEngine ∧
     Credits.lookupAccount
       (runJobRows (runnerQueryKeywords ["CEO"]) 1 0 exState0 [exRowAcme]).eng "u1"
        = some 20) := by
  decide

/-- Counterexample for C2 — a usable row (name and city non-empty) whose
only candidate is the hallucinated John Doe produces zero valid candidates,
yet the code still attempts the per-row spend; conversely a row that is
usable in the claim's sense (name non-empty) but has no country, city or
website gets no spend attempt even though it has a valid candidate. -/
theorem spend_attempted_without_valid_candidate :
    exRowHallucinated.results.filter
        (validCandidate (runnerQueryKeywords ["CEO"])) = [] ∧
    (processRowOut (runnerQueryKeywords ["CEO"]) 1 0 exState0
        exRowHallucinated).spendAttempts = 1 ∧
    exRowNameOnly.companyName ≠ "" ∧
    exRowNameOnly.results.filter
        (validCandidate (runnerQueryKeywords ["CEO"])) = [exAlice] ∧
    (processRowOut (runnerQueryKeywords ["CEO"]) 1 0 exState0
        exRowNameOnly).spendAttempts = 0 := by
  decide

theorem usableCompany_eq_true_iff (out : RowResult) :
    usableCompany out = true ↔
      (out.companyName ≠ "" ∧
        (out.companyCountry ≠ "" ∨ out.companyCity ≠ "" ∨ out.companyWebsite ≠ "")) := by
  unfold usableCompany
  simp [bne]
  tauto

/-- Claim C2 (amended) — in the batch loop, the per-row spend is attempted
exactly when the resolved company name is non-empty AND at least one of
country, city, website is non-empty, regardless of whether any valid
candidate was produced for the row. -/
theorem spend_attempt_iff_usable (kw : List String) (cpc : Int) (now : Nat)
    (s : RunnerState) (out : RowResult) (habort : s.abort = false) :
    ((processRowOut kw cpc now s out).spendAttempts = s.spendAttempts + 1 ↔
      (out.companyName ≠ "" ∧
        (out.companyCountry ≠ "" ∨ out.companyCity ≠ "" ∨ out.companyWebsite ≠ ""))) := by
  unfold processRowOut
  rw [if_neg (by simp [habort])]
  by_cases husable : usableCompany out = true
  · rw [if_pos husable]
    rcases hcall : call_spend_credits_with_kwargs runner_spend_call_kwargs s.eng
      s.job.userId cpc s.job.id now with e | engAfter
    · exact iff_of_true rfl ((usableCompany_eq_true_iff out).mp husable)
    · exact iff_of_true rfl ((usableCompany_eq_true_iff out).mp husable)
  · rw [if_neg husable]
    refine iff_of_false ?_ ?_
    · show ¬ (s.spendAttempts = s.spendAttempts + 1)
      omega
    · intro h
      exact husable ((usableCompany_eq_true_iff out).mpr h)

/-- Witness for the amended C2 at the concrete usable row. -/
theorem spend_attempt_iff_usable_witness :
    exState0.abort = false ∧
    ((processRowOut (runnerQueryKeywords ["CEO"]) 1 0 exState0 exRowAcme).spendAttempts
        = exState0.spendAttempts + 1 ↔
      (exRowAcme.companyName ≠ "" ∧
        (exRowAcme.companyCountry ≠ "" ∨ exRowAcme.companyCity ≠ "" ∨
          exRowAcme.companyWebsite ≠ ""))) :=
  ⟨rfl, spend_attempt_iff_usable (runnerQueryKeywords ["CEO"]) 1 0 exState0 exRowAcme rfl⟩

end Runner

namespace Runner

open PyStr

theorem runnerQueryKeywords_not_isEmpty (jt : List String) :
    (runnerQueryKeywords jt).isEmpty = false := by
  unfold runnerQueryKeywords
  by_cases h : ((jt.map pyStrip).filter (fun x => x ≠ "")).isEmpty = true
  · rw [if_pos h]
    decide
  · rw [if_neg h]
    rcases hl : (jt.map pyStrip).filter (fun x => x ≠ "") with _ | ⟨x, xs⟩
    · rw [hl] at h
      simp at h
    · simp [List.take]

theorem pyText_idem (s : String) : pyText (pyText s) = pyText s :=
  PyStr.pyStrip_idem s

theorem validCandidate_title_matches {kw : List String} (hkw : kw.isEmpty = false)
    {res : Candidate} (h : validCandidate kw res = true) :
    Rules.title_matches_keywords (pyText res.title) kw = true := by
  unfold validCandidate at h
  dsimp only at h
  rw [if_neg (by simp [hkw] : ¬ kw.isEmpty = true)] at h
  by_cases hok : Rules.title_matches_keywords (pyText res.title) kw = true
  · exact hok
  · have hfalse : Rules.title_matches_keywords (pyText res.title) kw = false := by
      revert hok
      cases Rules.title_matches_keywords (pyText res.title) kw <;> simp
    rw [hfalse] at h
    simp at h

theorem mkDM_title_gating {kw : List String} (hkw : kw.isEmpty = false)
    {res : Candidate} (h : validCandidate kw res = true) :
    Rules.title_matches_keywords (mkDM res).title kw = true ∧
    Rules.anyNegative (mkDM res).title = false := by
  have hm := validCandidate_title_matches hkw h
  have hne : ¬ pyText res.title = "" := by
    intro he
    have hstr := Rules.title_matches_keywords_stripped_nonempty hm
    rw [he] at hstr
    exact hstr PyStr.pyStrip_empty
  have htitle : (mkDM res).title = pyText res.title := by
    show pyNonEmpty (pyText res.title) "Unknown" = pyText res.title
    unfold pyNonEmpty
    rw [pyText_idem, if_neg hne]
  have hneg := Rules.title_matches_keywords_no_negative hm
  constructor
  · rw [htitle]
    exact hm
  · rw [htitle]
    have : pyStrip (pyText res.title) = pyText res.title := pyText_idem res.title
    rw [this] at hneg
    exact hneg

theorem processRowOut_dms_gating (kw : List String) (cpc : Int) (now : Nat)
    (s : RunnerState) (out : RowResult) (hkw : kw.isEmpty = false) :
    ∀ dm ∈ (processRowOut kw cpc now s out).dms,
      dm ∈ s.dms ∨ (Rules.title_matches_keywords dm.title kw = true ∧
        Rules.anyNegative dm.title = false) := by
  intro dm hdm
  unfold processRowOut at hdm
  by_cases habort : s.abort = true
  · rw [if_pos habort] at hdm
    exact Or.inl hdm
  · rw [if_neg habort] at hdm
    by_cases husable : usableCompany out = true
    · rw [if_pos husable] at hdm
      rcases hcall : call_spend_credits_with_kwargs runner_spend_call_kwargs s.eng
        s.job.userId cpc s.job.id now with e | engAfter
      · rw [hcall] at hdm
        exact Or.inl hdm
      · rw [hcall] at hdm
        have hdm' : dm ∈ s.dms ++ (out.results.filter (validCandidate kw)).map mkDM := hdm
        rcases List.mem_append.mp hdm' with hin | hin
        · exact Or.inl hin
        · obtain ⟨res, hres, rfl⟩ := List.mem_map.mp hin
          have hvalid := List.of_mem_filter hres
          exact Or.inr (mkDM_title_gating hkw hvalid)
    · rw [if_neg husable] at hdm
      exact Or.inl hdm

theorem processRows_dms_gating (kw : List String) (cpc : Int) (now : Nat)
    (hkw : kw.isEmpty = false) :
    ∀ (outs : List RowResult) (s : RunnerState),
    ∀ dm ∈ (processRows kw cpc now s outs).dms,
      dm ∈ s.dms ∨ (Rules.title_matches_keywords dm.title kw = true ∧
        Rules.anyNegative dm.title = false) := by
  intro outs
  induction outs with
  | nil =>
    intro s dm hdm
    exact Or.inl hdm
  | cons out rest ih =>
    intro s dm hdm
    unfold processRows at hdm
    rw [List.foldl_cons] at hdm
    rcases ih (processRowOut kw cpc now s out) dm hdm with hin | hprop
    · exact processRowOut_dms_gating kw cpc now s out hkw dm hin
    · exact Or.inr hprop

theorem finishJob_dms (s : RunnerState) : (finishJob s).dms = s.dms := by
  unfold finishJob
  by_cases h : s.job.status = JobStatus.processing
  · rw [if_pos h]
  · rw [if_neg h]

/-- Claim C5 (amended) — every DecisionMaker the Job Runner persists
satisfies `title_matches_keywords(title, kw)` where `kw` is the job's
normalised `job_titles[:5]` when non-empty and otherwise the FIRST FIVE
default query keywords (CEO, Founder, "Co-Founder", Owner, President); the
`is_decision_maker_title` branch of the source is unreachable because `kw`
is never empty.  In particular no persisted title matches any negative
pattern. -/
theorem persisted_title_gating (jobTitles : List String) :
    ((runnerQueryKeywords jobTitles).isEmpty = false) ∧
    (∀ (out : RowResult) (res : Candidate),
      res ∈ out.results.filter (validCandidate (runnerQueryKeywords jobTitles)) →
      Rules.title_matches_keywords (mkDM res).title (runnerQueryKeywords jobTitles) = true ∧
      Rules.anyNegative (mkDM res).title = false) ∧
    (∀ (cpc : Int) (now : Nat) (s : RunnerState) (outs : List RowResult),
      ∀ dm ∈ (runJobRows (runnerQueryKeywords jobTitles) cpc now s outs).dms,
        dm ∈ s.dms ∨
        (Rules.title_matches_keywords dm.title (runnerQueryKeywords jobTitles) = true ∧
         Rules.anyNegative dm.title = false)) := by
  have hkw := runnerQueryKeywords_not_isEmpty jobTitles
  refine ⟨hkw, ?_, ?_⟩
  · intro out res hres
    exact mkDM_title_gating hkw (List.of_mem_filter hres)
  · intro cpc now s outs dm hdm
    unfold runJobRows at hdm
    rw [finishJob_dms] at hdm
    exact processRows_dms_gating (runnerQueryKeywords jobTitles) cpc now hkw outs s dm hdm

/-- Witness for the amended C5 at a concrete validated candidate. -/
theorem persisted_title_gating_witness :
    (Rules.title_matches_keywords (mkDM exAlice).title (runnerQueryKeywords ["CEO"]) = true ∧
     Rules.anyNegative (mkDM exAlice).title = false) ∧
    exAlice ∈ exRowAcme.results.filter (validCandidate (runnerQueryKeywords ["CEO"])) :=
  ⟨(persisted_title_gating ["CEO"]).2.1 exRowAcme exAlice (by decide), by decide⟩

/-- Counterexample for C5 — with no `job_titles` supplied the Runner's gate
is substring matching against the first five DEFAULT keywords, not
`is_decision_maker_title`: the title "Ceoxyz" (containing "ceo" only inside
a longer word) is accepted and persisted although
`is_decision_maker_title("Ceoxyz") = (false, "")`. -/
theorem title_gating_counterexample :
    runnerQueryKeywords [] =
      ["CEO", "Founder", "\"Co-Founder\"", "Owner", "President"] ∧
    validCandidate (runnerQueryKeywords []) exCeoxyz = true ∧
    ((⟨"Acme", "", "New York", "", "", [exCeoxyz]⟩ : RowResult).results.filter
        (validCandidate (runnerQueryKeywords []))).map mkDM =
      [⟨"Alice Stone", "Ceoxyz", "linkedin", "https://linkedin.com/in/alice-stone"⟩] ∧
    (Rules.is_decision_maker_title "Ceoxyz") = (false, "") := by
  refine ⟨by decide, by decide, by decide, by decide⟩

end Runner

namespace Costs

/-- Model of `llm_cost_usd` (costs.py lines 6-9); Python floats are
idealised as exact rationals. -/
def llm_cost_usd (promptTokens completionTokens : Int)
    (inputCostPerM outputCostPerM : ℚ) : ℚ :=
  ((max 0 promptTokens : Int) : ℚ) / 1000000 * inputCostPerM +
    ((max 0 completionTokens : Int) : ℚ) / 1000000 * outputCostPerM

/-- Model of `serper_cost_usd` (costs.py lines 12-14). -/
def serper_cost_usd (serperCalls : Int) (costPer1k : ℚ) : ℚ :=
  ((max 0 serperCalls : Int) : ℚ) / 1000 * costPer1k

/-- Round to the nearest integer, ties to the even integer: the behaviour
of Python's built-in `round` (idealised over exact rationals). -/
def roundHalfEven (x : ℚ) : Int :=
  let f := ⌊x⌋
  let r := x - f
  if r < 1/2 then f
  else if 1/2 < r then f + 1
  else if f % 2 = 0 then f else f + 1

/-- Model of `safe_round_money` (costs.py lines 17-21): `round(v, 6)`. -/
def safe_round_money (v : ℚ) : ℚ := (roundHalfEven (v * 10 ^ 6) : ℚ) / 10 ^ 6

structure CostFields where
  llm_cost_usd : ℚ
  serper_cost_usd : ℚ
  total_cost_usd : ℚ
  cost_per_contact_usd : ℚ
  deriving Repr, DecidableEq

/-- Model of `compute_job_cost_fields` (costs.py lines 24-48). -/
def compute_job_cost_fields (llmPromptTokens llmCompletionTokens serperCalls
    contactsFound : Int) (inputCostPerM outputCostPerM serperCostPer1k : ℚ) :
    CostFields :=
  let llm := llm_cost_usd llmPromptTokens llmCompletionTokens inputCostPerM outputCostPerM
  let serper := serper_cost_usd serperCalls serperCostPer1k
  let total := llm + serper
  let denom : Int := max 1 contactsFound
  { llm_cost_usd := safe_round_money llm
    serper_cost_usd := safe_round_money serper
    total_cost_usd := safe_round_money total
    cost_per_contact_usd := safe_round_money (total / (denom : ℚ)) }

/-- Specification-side formula of the claim: `pt/1e6·input + ct/1e6·output`
with no clamping. -/
def specLlmCost (pt ct : Int) (inRate outRate : ℚ) : ℚ :=
  (pt : ℚ) / 1000000 * inRate + (ct : ℚ) / 1000000 * outRate

/-- Specification-side formula of the claim: `calls/1000·rate`. -/
def specSerperCost (sc : Int) (rate : ℚ) : ℚ := (sc : ℚ) / 1000 * rate

/-- The value `y` is `v` rounded half-to-even to 6 decimal places: `y` is an
integer multiple of `10⁻⁶`, at distance at most half an ulp from `v`, and
an exact tie goes to the even multiple. -/
def RoundedHalfEven6 (v y : ℚ) : Prop :=
  ∃ n : Int, y = (n : ℚ) / 10 ^ 6 ∧ |v * 10 ^ 6 - n| ≤ 1 / 2 ∧
    (|v * 10 ^ 6 - n| = 1 / 2 → n % 2 = 0)

theorem roundHalfEven_nearest (x : ℚ) : |x - roundHalfEven x| ≤ 1 / 2 := by
  unfold roundHalfEven
  have h1 : (⌊x⌋ : ℚ) ≤ x := Int.floor_le x
  have h2 : x < ⌊x⌋ + 1 := Int.lt_floor_add_one x
  by_cases hlt : x - ⌊x⌋ < 1 / 2
  · rw [if_pos hlt]
    rw [abs_of_nonneg (by linarith)]
    linarith
  · rw [if_neg hlt]
    by_cases hgt : 1 / 2 < x - ⌊x⌋
    · rw [if_pos hgt]
      push_cast
      rw [abs_of_nonpos (by linarith)]
      linarith
    · rw [if_neg hgt]
      have heq : x - ⌊x⌋ = 1 / 2 := le_antisymm (not_lt.mp hgt) (not_lt.mp hlt)
      by_cases hev : ⌊x⌋ % 2 = 0
      · rw [if_pos hev]
        rw [abs_of_nonneg (by linarith)]
        linarith
      · rw [if_neg hev]
        push_cast
        rw [abs_of_nonpos (by linarith)]
        linarith

theorem roundHalfEven_tie_even (x : ℚ) (h : |x - roundHalfEven x| = 1 / 2) :
    roundHalfEven x % 2 = 0 := by
  unfold roundHalfEven at h ⊢
  have h1 : (⌊x⌋ : ℚ) ≤ x := Int.floor_le x
  have h2 : x < ⌊x⌋ + 1 := Int.lt_floor_add_one x
  by_cases hlt : x - ⌊x⌋ < 1 / 2
  · rw [if_pos hlt] at h ⊢
    rw [abs_of_nonneg (by linarith)] at h
    linarith
  · rw [if_neg hlt] at h ⊢
    by_cases hgt : 1 / 2 < x - ⌊x⌋
    · rw [if_pos hgt] at h ⊢
      push_cast at h
      rw [abs_of_nonpos (by linarith)] at h
      linarith
    · rw [if_neg hgt] at h ⊢
      by_cases hev : ⌊x⌋ % 2 = 0
      · rw [if_pos hev]
        exact hev
      · rw [if_neg hev]
        omega

theorem safe_round_money_rounded (v : ℚ) :
    RoundedHalfEven6 v (safe_round_money v) :=
  ⟨roundHalfEven (v * 10 ^ 6), rfl, roundHalfEven_nearest (v * 10 ^ 6),
    roundHalfEven_tie_even (v * 10 ^ 6)⟩

/-- Claim C6 — for non-negative token/call/contact counts, the cost
computation returns `llm = pt/1e6·input_rate + ct/1e6·output_rate`,
`serper = calls/1000·serper_rate`, `total = llm + serper`,
`cost_per_contact = total / max(1, contacts)`, each rounded half-to-even to
6 decimal places. -/
theorem compute_job_cost_fields_spec (pt ct sc cf : Int)
    (inRate outRate serperRate : ℚ)
    (hpt : 0 ≤ pt) (hct : 0 ≤ ct) (hsc : 0 ≤ sc) :
    (compute_job_cost_fields pt ct sc cf inRate outRate serperRate).llm_cost_usd
      = safe_round_money (specLlmCost pt ct inRate outRate) ∧
    (compute_job_cost_fields pt ct sc cf inRate outRate serperRate).serper_cost_usd
      = safe_round_money (specSerperCost sc serperRate) ∧
    (compute_job_cost_fields pt ct sc cf inRate outRate serperRate).total_cost_usd
      = safe_round_money (specLlmCost pt ct inRate outRate + specSerperCost sc serperRate) ∧
    (compute_job_cost_fields pt ct sc cf inRate outRate serperRate).cost_per_contact_usd
      = safe_round_money ((specLlmCost pt ct inRate outRate + specSerperCost sc serperRate)
          / ((max 1 cf : Int) : ℚ)) ∧
    RoundedHalfEven6 (specLlmCost pt ct inRate outRate)
      (compute_job_cost_fields pt ct sc cf inRate outRate serperRate).llm_cost_usd ∧
    RoundedHalfEven6 (specSerperCost sc serperRate)
      (compute_job_cost_fields pt ct sc cf inRate outRate serperRate).serper_cost_usd ∧
    RoundedHalfEven6 (specLlmCost pt ct inRate outRate + specSerperCost sc serperRate)
      (compute_job_cost_fields pt ct sc cf inRate outRate serperRate).total_cost_usd ∧
    RoundedHalfEven6 ((specLlmCost pt ct inRate outRate + specSerperCost sc serperRate)
        / ((max 1 cf : Int) : ℚ))
      (compute_job_cost_fields pt ct sc cf inRate outRate serperRate).cost_per_contact_usd := by
  have hllm : llm_cost_usd pt ct inRate outRate = specLlmCost pt ct inRate outRate := by
    unfold llm_cost_usd specLlmCost
    rw [max_eq_right hpt, max_eq_right hct]
  have hserp : serper_cost_usd sc serperRate = specSerperCost sc serperRate := by
    unfold serper_cost_usd specSerperCost
    rw [max_eq_right hsc]
  have e1 : (compute_job_cost_fields pt ct sc cf inRate outRate serperRate).llm_cost_usd
      = safe_round_money (specLlmCost pt ct inRate outRate) := by
    show safe_round_money (llm_cost_usd pt ct inRate outRate) = _
    rw [hllm]
  have e2 : (compute_job_cost_fields pt ct sc cf inRate outRate serperRate).serper_cost_usd
      = safe_round_money (specSerperCost sc serperRate) := by
    show safe_round_money (serper_cost_usd sc serperRate) = _
    rw [hserp]
  have e3 : (compute_job_cost_fields pt ct sc cf inRate outRate serperRate).total_cost_usd
      = safe_round_money (specLlmCost pt ct inRate outRate + specSerperCost sc serperRate) := by
    show safe_round_money (llm_cost_usd pt ct inRate outRate + serper_cost_usd sc serperRate) = _
    rw [hllm, hserp]
  have e4 : (compute_job_cost_fields pt ct sc cf inRate outRate serperRate).cost_per_contact_usd
      = safe_round_money ((specLlmCost pt ct inRate outRate + specSerperCost sc serperRate)
          / ((max 1 cf : Int) : ℚ)) := by
    show safe_round_money ((llm_cost_usd pt ct inRate outRate + serper_cost_usd sc serperRate)
        / ((max 1 cf : Int) : ℚ)) = _
    rw [hllm, hserp]
  refine ⟨e1, e2, e3, e4, ?_, ?_, ?_, ?_⟩
  · rw [e1]
    exact safe_round_money_rounded _
  · rw [e2]
    exact safe_round_money_rounded _
  · rw [e3]
    exact safe_round_money_rounded _
  · rw [e4]
    exact safe_round_money_rounded _

end Costs

namespace Costs

/-- Witness for C6 at concrete counts and rates: 1000 prompt tokens at
5 USD/M, 2000 completion tokens at 15 USD/M, 3 search calls at 1 USD/1k,
zero contacts. -/
theorem compute_job_cost_fields_spec_witness :
    ((0 : Int) ≤ 1000 ∧ (0 : Int) ≤ 2000 ∧ (0 : Int) ≤ 3) ∧
    (compute_job_cost_fields 1000 2000 3 0 5 15 1).llm_cost_usd
      = safe_round_money (specLlmCost 1000 2000 5 15) ∧
    compute_job_cost_fields 1000 2000 3 0 5 15 1 =
      ⟨7 / 200, 3 / 1000, 19 / 500, 19 / 500⟩ := by
  refine ⟨⟨by decide, by decide, by decide⟩, ?_, ?_⟩
  · exact (compute_job_cost_fields_spec 1000 2000 3 0 5 15 1
      (by decide) (by decide) (by decide)).1
  · show CostFields.mk _ _ _ _ = _
    rw [CostFields.mk.injEq]
    norm_num [compute_job_cost_fields, llm_cost_usd, serper_cost_usd,
      safe_round_money, roundHalfEven]

end Costs

namespace LLM

/-- The usage dictionary `_chat_completion` returns when `capture_usage`
(client.py lines 267-275): each field is the provider-reported integer or
None. -/
structure Usage where
  prompt_tokens : Option Nat
  completion_tokens : Option Nat
  total_tokens : Option Nat
  deriving Repr, DecidableEq

/-- Provider behaviour of one attempt: a successful response carrying the
optional usage numbers, an HTTP error status (with whether its message
mentions `response_format`), or a transport/timeout error. -/
inductive AttemptOutcome where
  | ok (promptTokens completionTokens totalTokens : Option Nat)
  | httpErr (status : Nat) (msgMentionsResponseFormat : Bool)
  | transportErr
  deriving Repr, DecidableEq

/-- The retryable status set of client.py line 286. -/
def RETRYABLE_STATUSES : List Nat := [408, 409, 425, 429, 500, 502, 503, 504]

/-- Result of `_chat_completion`, with the number of attempts made. -/
inductive ChatResult where
  | success (usage : Usage) (attempts : Nat)
  | disabled (attempts : Nat)
  | raisedHttp (status : Nat) (attempts : Nat)
  | raisedTransport (attempts : Nat)
  | runtimeError (attempts : Nat)
  deriving Repr, DecidableEq

def attemptsOf : ChatResult → Nat
  | .success _ a => a
  | .disabled a => a
  | .raisedHttp _ a => a
  | .raisedTransport a => a
  | .runtimeError a => a

/-- The sleep before the next attempt (client.py lines 287-288 and 294-295):
`min(15, base * 2^(attempt-1) + jitter)`; the uniform(0, 0.25) jitter is a
parameter. -/
def backoffSleep (base jit : ℚ) (attempt : Nat) : ℚ :=
  min 15 (base * 2 ^ (attempt - 1) + jit)

/-- The retry loop of `_chat_completion` (client.py lines 245-302), indexed
by remaining loop iterations (`fuel = maxR - attempt + 1`).  Arguments:
attempt number, whether the response-format parameter is still included,
the stored `last_err`, the sleeps performed so far. -/
def chatAux (o : Nat → Bool → AttemptOutcome) (base : ℚ) (jit : Nat → ℚ)
    (maxR : Nat) : Nat → Bool → Option AttemptOutcome → List ℚ → Nat →
    ChatResult × List ℚ
  | a, _, lastErr, sleeps, 0 =>
    ((match lastErr with
      | some (.httpErr s _) => .raisedHttp s (a - 1)
      | some .transportErr => .raisedTransport (a - 1)
      | _ => .runtimeError (a - 1)), sleeps)
  | a, rf, _, sleeps, fuel + 1 =>
    match o a rf with
    | .ok pt ct tt => (.success ⟨pt, ct, tt⟩ a, sleeps)
    | .httpErr s mrf =>
      if s = 402 then (.disabled a, sleeps)
      else if s = 400 ∧ rf = true ∧ mrf = true then
        chatAux o base jit maxR (a + 1) false (some (.httpErr s mrf)) sleeps fuel
      else if s ∈ RETRYABLE_STATUSES ∧ a < maxR then
        chatAux o base jit maxR (a + 1) rf (some (.httpErr s mrf))
          (sleeps ++ [backoffSleep base (jit a) a]) fuel
      else (.raisedHttp s a, sleeps)
    | .transportErr =>
      if a < maxR then
        chatAux o base jit maxR (a + 1) rf (some .transportErr)
          (sleeps ++ [backoffSleep base (jit a) a]) fuel
      else (.raisedTransport a, sleeps)

/-- Model of `_chat_completion`: run the loop from attempt 1 with the
response-format parameter included and no stored error. -/
def chat_completion (o : Nat → Bool → AttemptOutcome) (base : ℚ) (jit : Nat → ℚ)
    (maxR : Nat) : ChatResult × List ℚ :=
  chatAux o base jit maxR 1 true none [] maxR

/-- Default of `LLM_MAX_RETRIES` (client.py line 227). -/
def LLM_MAX_RETRIES_DEFAULT : Nat := 4

/-- Model of `_estimate_tokens_from_text` (client.py lines 47-51):
`max(1, int(len(s)/4))` for non-empty text — `int()` truncates, i.e. floor
division for non-negative lengths. -/
def estimate_tokens_from_text (s : String) : Nat :=
  if s = "" then 0 else max 1 (s.length / 4)

/-- Model of `_estimate_tokens_from_messages` (client.py lines 54-65), with
each message's content as a string. -/
def estimate_tokens_from_messages (msgs : List String) : Nat :=
  (msgs.map estimate_tokens_from_text).sum

/-- The coercion the Job Runner applies to a returned usage dictionary
(`add_llm_usage`, jobs.py lines 525-532): `int(u.get(...) or 0)`. -/
def usageToCounters (u : Usage) : Nat × Nat × Nat :=
  (u.prompt_tokens.getD 0, u.completion_tokens.getD 0, u.total_tokens.getD 0)

/-- Oracle that fails with HTTP 500 on the first four attempts and would
succeed on the fifth. -/
def oc500 : Nat → Bool → AttemptOutcome := fun a _ =>
  if a ≤ 4 then .httpErr 500 false else .ok none none none

/-- Oracle whose response reports no usage. -/
def ocOkNoUsage : Nat → Bool → AttemptOutcome := fun _ _ => .ok none none none

end LLM

namespace LLM

theorem chatAux_ok (o : Nat → Bool → AttemptOutcome) (base : ℚ) (jit : Nat → ℚ)
    (maxR a : Nat) (rf : Bool) (le : Option AttemptOutcome) (sl : List ℚ) (fuel : Nat)
    (pt ct tt : Option Nat) (ho : o a rf = .ok pt ct tt) :
    chatAux o base jit maxR a rf le sl (fuel + 1) = (.success ⟨pt, ct, tt⟩ a, sl) := by
  simp [chatAux, ho]

theorem chatAux_disabled (o : Nat → Bool → AttemptOutcome) (base : ℚ) (jit : Nat → ℚ)
    (maxR a : Nat) (rf : Bool) (le : Option AttemptOutcome) (sl : List ℚ) (fuel : Nat)
    (mrf : Bool) (ho : o a rf = .httpErr 402 mrf) :
    chatAux o base jit maxR a rf le sl (fuel + 1) = (.disabled a, sl) := by
  simp [chatAux, ho]

theorem chatAux_400rf (o : Nat → Bool → AttemptOutcome) (base : ℚ) (jit : Nat → ℚ)
    (maxR a : Nat) (le : Option AttemptOutcome) (sl : List ℚ) (fuel : Nat)
    (ho : o a true = .httpErr 400 true) :
    chatAux o base jit maxR a true le sl (fuel + 1) =
      chatAux o base jit maxR (a + 1) false (some (.httpErr 400 true)) sl fuel := by
  simp [chatAux, ho]

theorem chatAux_retryable (o : Nat → Bool → AttemptOutcome) (base : ℚ) (jit : Nat → ℚ)
    (maxR a : Nat) (rf : Bool) (le : Option AttemptOutcome) (sl : List ℚ) (fuel : Nat)
    (s : Nat) (mrf : Bool) (ho : o a rf = .httpErr s mrf)
    (hmem : s ∈ RETRYABLE_STATUSES) (hlt : a < maxR)
    (hn400 : ¬ (s = 400 ∧ rf = true ∧ mrf = true)) :
    chatAux o base jit maxR a rf le sl (fuel + 1) =
      chatAux o base jit maxR (a + 1) rf (some (.httpErr s mrf))
        (sl ++ [backoffSleep base (jit a) a]) fuel := by
  have h402 : ¬ s = 402 := by
    simp only [RETRYABLE_STATUSES, List.mem_cons, List.mem_singleton] at hmem
    rcases hmem with rfl | rfl | rfl | rfl | rfl | rfl | rfl | (rfl | h) <;> simp_all
  simp [chatAux, ho, h402, hn400, hmem, hlt]

theorem chatAux_raise_http (o : Nat → Bool → AttemptOutcome) (base : ℚ) (jit : Nat → ℚ)
    (maxR a : Nat) (rf : Bool) (le : Option AttemptOutcome) (sl : List ℚ) (fuel : Nat)
    (s : Nat) (mrf : Bool) (ho : o a rf = .httpErr s mrf) (h402 : ¬ s = 402)
    (hn400 : ¬ (s = 400 ∧ rf = true ∧ mrf = true))
    (hnretry : ¬ (s ∈ RETRYABLE_STATUSES ∧ a < maxR)) :
    chatAux o base jit maxR a rf le sl (fuel + 1) = (.raisedHttp s a, sl) := by
  simp [chatAux, ho, h402, hn400, hnretry]

theorem chatAux_transport_retry (o : Nat → Bool → AttemptOutcome) (base : ℚ)
    (jit : Nat → ℚ) (maxR a : Nat) (rf : Bool) (le : Option AttemptOutcome)
    (sl : List ℚ) (fuel : Nat) (ho : o a rf = .transportErr) (hlt : a < maxR) :
    chatAux o base jit maxR a rf le sl (fuel + 1) =
      chatAux o base jit maxR (a + 1) rf (some .transportErr)
        (sl ++ [backoffSleep base (jit a) a]) fuel := by
  simp [chatAux, ho, hlt]

theorem chatAux_transport_raise (o : Nat → Bool → AttemptOutcome) (base : ℚ)
    (jit : Nat → ℚ) (maxR a : Nat) (rf : Bool) (le : Option AttemptOutcome)
    (sl : List ℚ) (fuel : Nat) (ho : o a rf = .transportErr) (hge : ¬ a < maxR) :
    chatAux o base jit maxR a rf le sl (fuel + 1) = (.raisedTransport a, sl) := by
  simp [chatAux, ho, hge]

theorem chatAux_attempts_le (o : Nat → Bool → AttemptOutcome) (base : ℚ)
    (jit : Nat → ℚ) (maxR : Nat) :
    ∀ (fuel a : Nat) (rf : Bool) (le : Option AttemptOutcome) (sl : List ℚ),
      attemptsOf (chatAux o base jit maxR a rf le sl fuel).1 ≤ a + fuel - 1 := by
  intro fuel
  induction fuel with
  | zero =>
    intro a rf le sl
    rcases le with _ | e
    · simp [chatAux, attemptsOf]
    · rcases e with ⟨pt, ct, tt⟩ | ⟨s, mrf⟩ | _ <;> simp [chatAux, attemptsOf]
  | succ fuel ih =>
    intro a rf le sl
    rcases ho : o a rf with ⟨pt, ct, tt⟩ | ⟨s, mrf⟩ | _
    · rw [chatAux_ok o base jit maxR a rf le sl fuel pt ct tt ho]
      simp [attemptsOf]
    · by_cases h402 : s = 402
      · subst h402
        rw [chatAux_disabled o base jit maxR a rf le sl fuel mrf ho]
        simp only [attemptsOf]
        omega
      · by_cases h400 : s = 400 ∧ rf = true ∧ mrf = true
        · obtain ⟨hs, hrf, hmrf⟩ := h400
          subst hs
          subst hmrf
          subst hrf
          rw [chatAux_400rf o base jit maxR a le sl fuel ho]
          have hrec := ih (a + 1) false (some (.httpErr 400 true)) sl
          omega
        · by_cases hretry : s ∈ RETRYABLE_STATUSES ∧ a < maxR
          · rw [chatAux_retryable o base jit maxR a rf le sl fuel s mrf ho hretry.1
              hretry.2 h400]
            have hrec := ih (a + 1) rf (some (.httpErr s mrf))
              (sl ++ [backoffSleep base (jit a) a])
            omega
          · rw [chatAux_raise_http o base jit maxR a rf le sl fuel s mrf ho h402 h400
              hretry]
            simp only [attemptsOf]
            omega
    · by_cases hlt : a < maxR
      · rw [chatAux_transport_retry o base jit maxR a rf le sl fuel ho hlt]
        have hrec := ih (a + 1) rf (some .transportErr) (sl ++ [backoffSleep base (jit a) a])
        omega
      · rw [chatAux_transport_raise o base jit maxR a rf le sl fuel ho hlt]
        simp [attemptsOf]

end LLM

namespace LLM

/-- Oracle that always returns HTTP 402. -/
def oc402 : Nat → Bool → AttemptOutcome := fun _ _ => .httpErr 402 false

/-- Claim C7 (amended) — the retry loop behaves as follows: a successful
attempt returns immediately; HTTP 402 is fatal at any attempt and surfaced
as the disabled ("insufficient credits") error; a retryable status
(408/409/425/429/500/502/503/504) or a transport error at attempt `a <
max_retries` is retried after sleeping `min(15, base·2^(a-1) + jitter)`;
any other HTTP status propagates immediately, except an HTTP 400 whose
message mentions `response_format` while the JSON response-format parameter
is still included, which is retried once without the parameter and without
sleeping; and at most `max_retries` attempts are made in total, so a
retryable failure is retried at most `max_retries - 1` times. -/
theorem chat_retry_policy (o : Nat → Bool → AttemptOutcome) (base : ℚ)
    (jit : Nat → ℚ) (maxR : Nat) :
    (∀ (a : Nat) (rf : Bool) (le : Option AttemptOutcome) (sl : List ℚ) (fuel : Nat)
      (pt ct tt : Option Nat), o a rf = .ok pt ct tt →
      chatAux o base jit maxR a rf le sl (fuel + 1) = (.success ⟨pt, ct, tt⟩ a, sl)) ∧
    (∀ (a : Nat) (rf : Bool) (le : Option AttemptOutcome) (sl : List ℚ) (fuel : Nat)
      (mrf : Bool), o a rf = .httpErr 402 mrf →
      chatAux o base jit maxR a rf le sl (fuel + 1) = (.disabled a, sl)) ∧
    (∀ (a : Nat) (rf : Bool) (le : Option AttemptOutcome) (sl : List ℚ) (fuel : Nat)
      (s : Nat) (mrf : Bool), o a rf = .httpErr s mrf → s ∈ RETRYABLE_STATUSES →
      a < maxR → ¬ (s = 400 ∧ rf = true ∧ mrf = true) →
      chatAux o base jit maxR a rf le sl (fuel + 1) =
        chatAux o base jit maxR (a + 1) rf (some (.httpErr s mrf))
          (sl ++ [min 15 (base * 2 ^ (a - 1) + jit a)]) fuel) ∧
    (∀ (a : Nat) (rf : Bool) (le : Option AttemptOutcome) (sl : List ℚ) (fuel : Nat),
      o a rf = .transportErr → a < maxR →
      chatAux o base jit maxR a rf le sl (fuel + 1) =
        chatAux o base jit maxR (a + 1) rf (some .transportErr)
          (sl ++ [min 15 (base * 2 ^ (a - 1) + jit a)]) fuel) ∧
    (∀ (a : Nat) (rf : Bool) (le : Option AttemptOutcome) (sl : List ℚ) (fuel : Nat)
      (s : Nat) (mrf : Bool), o a rf = .httpErr s mrf → ¬ s = 402 →
      ¬ (s = 400 ∧ rf = true ∧ mrf = true) → ¬ (s ∈ RETRYABLE_STATUSES ∧ a < maxR) →
      chatAux o base jit maxR a rf le sl (fuel + 1) = (.raisedHttp s a, sl)) ∧
    (∀ (a : Nat) (le : Option AttemptOutcome) (sl : List ℚ) (fuel : Nat),
      o a true = .httpErr 400 true →
      chatAux o base jit maxR a true le sl (fuel + 1) =
        chatAux o base jit maxR (a + 1) false (some (.httpErr 400 true)) sl fuel) ∧
    attemptsOf (chat_completion o base jit maxR).1 ≤ maxR := by
  refine ⟨?_, ?_, ?_, ?_, ?_, ?_, ?_⟩
  · intro a rf le sl fuel pt ct tt ho
    exact chatAux_ok o base jit maxR a rf le sl fuel pt ct tt ho
  · intro a rf le sl fuel mrf ho
    exact chatAux_disabled o base jit maxR a rf le sl fuel mrf ho
  · intro a rf le sl fuel s mrf ho hmem hlt hn400
    exact chatAux_retryable o base jit maxR a rf le sl fuel s mrf ho hmem hlt hn400
  · intro a rf le sl fuel ho hlt
    exact chatAux_transport_retry o base jit maxR a rf le sl fuel ho hlt
  · intro a rf le sl fuel s mrf ho h402 hn400 hnretry
    exact chatAux_raise_http o base jit maxR a rf le sl fuel s mrf ho h402 hn400 hnretry
  · intro a le sl fuel ho
    exact chatAux_400rf o base jit maxR a le sl fuel ho
  · have h := chatAux_attempts_le o base jit maxR maxR 1 true none []
    show attemptsOf (chatAux o base jit maxR 1 true none [] maxR).1 ≤ maxR
    omega

/-- Witness for the amended C7: a constant-402 provider is never retried
and is surfaced as the disabled error on attempt 1. -/
theorem chat_retry_policy_witness :
    oc402 1 true = .httpErr 402 false ∧
    chatAux oc402 (7 / 10) (fun _ => 0) 4 1 true none [] 4 = (.disabled 1, []) :=
  ⟨rfl, (chat_retry_policy oc402 (7 / 10) (fun _ => 0) 4).2.1 1 true none [] 3 false rfl⟩

/-- Counterexample for C7 — with `max_retries = 4` (the default), a
retryable failure is retried only 3 times: four consecutive HTTP 500
responses exhaust the loop after 4 attempts and 3 backoff sleeps
(0.7 s, 1.4 s, 2.8 s with zero jitter), raising the error even though a
fifth attempt would have succeeded; "retried up to 4 times" would require
a fifth attempt. -/
theorem retry_count_counterexample :
    chat_completion oc500 (7 / 10) (fun _ => 0) 4 =
      (.raisedHttp 500 4, [7 / 10, 7 / 5, 14 / 5]) ∧
    oc500 5 true = .ok none none none := by
  constructor
  · have h1 := chatAux_retryable oc500 (7 / 10) (fun _ => 0) 4 1 true none [] 3 500 false
      rfl (by decide) (by decide) (by simp)
    have h2 := chatAux_retryable oc500 (7 / 10) (fun _ => 0) 4 2 true
      (some (.httpErr 500 false)) ([] ++ [backoffSleep (7 / 10) 0 1]) 2 500 false
      rfl (by decide) (by decide) (by simp)
    have h3 := chatAux_retryable oc500 (7 / 10) (fun _ => 0) 4 3 true
      (some (.httpErr 500 false))
      ([] ++ [backoffSleep (7 / 10) 0 1] ++ [backoffSleep (7 / 10) 0 2]) 1 500 false
      rfl (by decide) (by decide) (by simp)
    have h4 := chatAux_raise_http oc500 (7 / 10) (fun _ => 0) 4 4 true
      (some (.httpErr 500 false))
      ([] ++ [backoffSleep (7 / 10) 0 1] ++ [backoffSleep (7 / 10) 0 2] ++
        [backoffSleep (7 / 10) 0 3]) 0 500 false
      rfl (by decide) (by simp) (by simp)
    have hchain := ((h1.trans h2).trans h3).trans h4
    have hs : ([] : List ℚ) ++ [backoffSleep (7 / 10) 0 1] ++ [backoffSleep (7 / 10) 0 2]
        ++ [backoffSleep (7 / 10) 0 3] = [7 / 10, 7 / 5, 14 / 5] := by
      simp only [backoffSleep, List.nil_append, min_def]
      norm_num
    show chatAux oc500 (7 / 10) (fun _ => 0) 4 1 true none [] 4 = _
    rw [hchain, hs]
  · decide

/-- Claim C8 (amended) — when the provider reports usage, the returned
usage carries exactly the reported `prompt/completion/total` values (an
absent field stays `None`, which the job accumulator coerces to 0); the
character-based estimator computes `max(1, ⌊chars/4⌋)` per non-empty
content (floor, not ceiling) and 0 for empty content, and is used only for
logging — it is never substituted into the returned usage. -/
theorem usage_accounting (o : Nat → Bool → AttemptOutcome) (base : ℚ)
    (jit : Nat → ℚ) (maxR : Nat) :
    (∀ (a : Nat) (rf : Bool) (le : Option AttemptOutcome) (sl : List ℚ) (fuel : Nat)
      (pt ct tt : Option Nat), o a rf = .ok pt ct tt →
      chatAux o base jit maxR a rf le sl (fuel + 1) = (.success ⟨pt, ct, tt⟩ a, sl)) ∧
    (∀ s : String, s ≠ "" →
      estimate_tokens_from_text s = max 1 (s.length / 4) ∧
      1 ≤ estimate_tokens_from_text s) ∧
    estimate_tokens_from_text "" = 0 ∧
    usageToCounters ⟨none, none, none⟩ = (0, 0, 0) := by
  refine ⟨?_, ?_, rfl, rfl⟩
  · intro a rf le sl fuel pt ct tt ho
    exact chatAux_ok o base jit maxR a rf le sl fuel pt ct tt ho
  · intro s hs
    unfold estimate_tokens_from_text
    rw [if_neg hs]
    exact ⟨rfl, le_max_left 1 _⟩

/-- Witness for the amended C8 at a concrete 8-character content. -/
theorem usage_accounting_witness :
    ("abcdefgh" : String) ≠ "" ∧
    estimate_tokens_from_text "abcdefgh" = max 1 ("abcdefgh".length / 4) :=
  ⟨by decide,
   ((usage_accounting ocOkNoUsage (7 / 10) (fun _ => 0) 4).2.1 "abcdefgh" (by decide)).1⟩

/-- Counterexample for C8 — the estimator truncates rather than rounds up:
a 6-character content is estimated at 1 token while `⌈6/4⌉ = 2`; and a
provider response with no usage is returned with all three fields `None`
(coerced to 0 by the accumulator), not replaced by the estimate. -/
theorem usage_estimate_counterexample :
    estimate_tokens_from_text "abcdef" = 1 ∧
    ("abcdef".length + 3) / 4 = 2 ∧
    usageToCounters ⟨none, none, none⟩ = (0, 0, 0) ∧
    chat_completion ocOkNoUsage (7 / 10) (fun _ => 0) 4 =
      (.success ⟨none, none, none⟩ 1, []) := by
  refine ⟨by decide, by decide, rfl, ?_⟩
  show chatAux ocOkNoUsage (7 / 10) (fun _ => 0) 4 1 true none [] 4 = _
  exact chatAux_ok ocOkNoUsage (7 / 10) (fun _ => 0) 4 1 true none [] 3 none none none rfl

end LLM

namespace Serper

/-- Clock observations of one `acquire` call (serper.py lines 20-34): `now`
is the monotonic reading at entry, `now2` the reading after the sleep (used
only when a sleep happens), `tApp` the reading recorded by the final
append.  The lock is held for the whole call, so a run is a sequence of
ops. -/
structure RLOp where
  now : ℚ
  now2 : ℚ
  tApp : ℚ
  deriving Repr, DecidableEq

/-- The pruning of serper.py lines 23-24 and 32-33: keep events `t` with
`t >= now - 1.0`. -/
def prune (t : ℚ) (evs : List ℚ) : List ℚ := evs.filter (fun e => decide (t - 1 ≤ e))

/-- The sleep duration computed at serper.py lines 25-28: when the pruned
window is full, `events[0] + 1.0 - now`, else 0. -/
def sleepFor (qps : ℕ) (evs : List ℚ) (op : RLOp) : ℚ :=
  let ev1 := prune op.now evs
  if qps ≤ ev1.length then ev1.headD 0 + 1 - op.now else 0

/-- One `acquire` call (serper.py lines 20-34): prune, possibly sleep and
re-prune, then append the fresh clock reading. -/
def rlStep (qps : ℕ) (evs : List ℚ) (op : RLOp) : List ℚ :=
  if 0 < sleepFor qps evs op then prune op.now2 (prune op.now evs) ++ [op.tApp]
  else prune op.now evs ++ [op.tApp]

/-- Run a sequence of acquires from a starting event list. -/
def rlRun (qps : ℕ) : List ℚ → List RLOp → List ℚ
  | evs, [] => evs
  | evs, op :: rest => rlRun qps (rlStep qps evs op) rest

/-- Validity of a trace of acquires: the monotonic clock never decreases
across readings, and when a sleep happens the clock advances by at least
the requested duration. -/
def rlValid (qps : ℕ) : ℚ → List ℚ → List RLOp → Prop
  | _, _, [] => True
  | clock, evs, op :: rest =>
    clock ≤ op.now ∧
    (if 0 < sleepFor qps evs op then
       op.now + sleepFor qps evs op ≤ op.now2 ∧ op.now2 ≤ op.tApp
     else op.now ≤ op.tApp) ∧
    rlValid qps op.tApp (rlStep qps evs op) rest

/-- Strict validity: additionally, no recorded event is ever exactly one
second old at an entry observation, and a sleep strictly overshoots the
requested duration (both hold for generic real-time clocks; violating them
needs an exact coincidence of clock readings). -/
def rlStrictValid (qps : ℕ) : ℚ → List ℚ → List RLOp → Prop
  | _, _, [] => True
  | clock, evs, op :: rest =>
    clock ≤ op.now ∧
    (∀ e ∈ evs, e ≠ op.now - 1) ∧
    (if 0 < sleepFor qps evs op then
       op.now + sleepFor qps evs op < op.now2 ∧ op.now2 ≤ op.tApp
     else op.now ≤ op.tApp) ∧
    rlStrictValid qps op.tApp (rlStep qps evs op) rest

/-- The times at which the search calls are initiated (the appended
events), in order. -/
def appendedTimes (ops : List RLOp) : List ℚ := ops.map (fun op => op.tApp)

/-- Any `qps+1` initiations that are `qps` apart in order span strictly
more than one second. -/
def GapProp (qps : ℕ) (l : List ℚ) : Prop :=
  ∀ (i j : ℕ) (hi : i < l.length) (hj : j < l.length), i + qps ≤ j →
    l.get ⟨i, hi⟩ + 1 < l.get ⟨j, hj⟩

/-- Membership of an event in the closed 1-second window starting at `t`. -/
def inWindow (t : ℚ) (e : ℚ) : Bool := decide (t ≤ e) && decide (e ≤ t + 1)

/-- A boundary trace with `qps = 1`: the second acquire appends at exactly
`10 + 1`, so the third finds the oldest event exactly one second old,
computes `sleep_for = 0`, and proceeds without sleeping. -/
def exOps : List RLOp := [⟨10, 10, 10⟩, ⟨11, 11, 11⟩, ⟨11, 11, 11⟩]

/-- Counterexample for C9 — with `SERPER_QPS = 1`, the valid trace `exOps`
initiates two search calls at time 11 (the window `[10.5, 11.5]` holds two
initiations, exceeding qps): when the oldest event is exactly one second
old, `sleep_for = (events[0] + 1.0) - now` is 0, so the caller neither
sleeps nor waits for the window to drain. -/
theorem rate_limit_window_counterexample :
    rlValid 1 0 [] exOps ∧
    appendedTimes exOps = [10, 11, 11] ∧
    rlRun 1 [] exOps = [10, 11, 11] ∧
    ((appendedTimes exOps).filter (inWindow (21 / 2))).length = 2 ∧
    1 < 2 := by
  refine ⟨?_, by norm_num [appendedTimes, exOps], ?_, ?_, by norm_num⟩
  · norm_num [rlValid, exOps, rlStep, sleepFor, prune, List.filter]
  · norm_num [rlRun, exOps, rlStep, sleepFor, prune, List.filter]
  · norm_num [appendedTimes, exOps, inWindow, List.filter]

end Serper

namespace Serper

theorem sorted_split_filter (c : ℚ) :
    ∀ (l : List ℚ), List.Pairwise (· ≤ ·) l →
    ∃ d, l = d ++ l.filter (fun e => decide (c ≤ e)) ∧ ∀ e ∈ d, e < c := by
  intro l
  induction l with
  | nil =>
    intro _
    exact ⟨[], rfl, by simp⟩
  | cons a as ih =>
    intro hp
    rw [List.pairwise_cons] at hp
    by_cases ha : c ≤ a
    · have hfa : as.filter (fun e => decide (c ≤ e)) = as := by
        rw [List.filter_eq_self]
        intro e he
        simp only [decide_eq_true_eq]
        exact le_trans ha (hp.1 e he)
      refine ⟨[], ?_, by simp⟩
      rw [List.filter_cons_of_pos (by simpa using ha), hfa, List.nil_append]
    · obtain ⟨d, hd, hdlt⟩ := ih hp.2
      refine ⟨a :: d, ?_, ?_⟩
      · rw [List.filter_cons_of_neg (by simpa using ha), List.cons_append, ← hd]
      · intro e he
        rcases List.mem_cons.mp he with rfl | he
        · exact not_le.mp ha
        · exact hdlt e he

theorem prune_split (t : ℚ) (l : List ℚ) (h : List.Pairwise (· ≤ ·) l) :
    ∃ d, l = d ++ prune t l ∧ ∀ e ∈ d, e < t - 1 :=
  sorted_split_filter (t - 1) l h

theorem mem_prune {t : ℚ} {l : List ℚ} {e : ℚ} (h : e ∈ prune t l) :
    e ∈ l ∧ t - 1 ≤ e := by
  unfold prune at h
  rw [List.mem_filter] at h
  exact ⟨h.1, by simpa using h.2⟩

theorem headD_mem {l : List ℚ} (h : l ≠ []) : l.headD 0 ∈ l := by
  cases l with
  | nil => exact absurd rfl h
  | cons a as => exact List.mem_cons_self a as

theorem nth_filter_index {α : Type} (p : α → Bool) :
    ∀ (l : List α) (m : ℕ), m ≤ (l.filter p).length → 1 ≤ m →
    ∃ (j : ℕ) (hj : j < l.length), m - 1 ≤ j ∧ p (l.get ⟨j, hj⟩) = true := by
  intro l
  induction l with
  | nil =>
    intro m hm h1
    simp at hm
    omega
  | cons a as ih =>
    intro m hm h1
    by_cases hpa : p a = true
    · rw [List.filter_cons_of_pos hpa] at hm
      by_cases hm1 : m ≤ 1
      · exact ⟨0, by simp, by omega, by simpa using hpa⟩
      · obtain ⟨j, hj, hmj, hpj⟩ := ih (m - 1) (by simp at hm ⊢; omega) (by omega)
        refine ⟨j + 1, by simp; omega, by omega, ?_⟩
        simpa using hpj
    · rw [List.filter_cons_of_neg (by simpa using hpa)] at hm
      obtain ⟨j, hj, hmj, hpj⟩ := ih m hm h1
      refine ⟨j + 1, by simp; omega, by omega, ?_⟩
      simpa using hpj

theorem exists_far_indices {α : Type} (p : α → Bool) (k : ℕ) :
    ∀ (l : List α), k + 1 ≤ (l.filter p).length →
    ∃ (i j : ℕ) (hi : i < l.length) (hj : j < l.length),
      i + k ≤ j ∧ p (l.get ⟨i, hi⟩) = true ∧ p (l.get ⟨j, hj⟩) = true := by
  intro l
  induction l with
  | nil =>
    intro h
    simp at h
  | cons a as ih =>
    intro hlen
    by_cases hpa : p a = true
    · rw [List.filter_cons_of_pos hpa] at hlen
      by_cases hk : k = 0
      · subst hk
        exact ⟨0, 0, by simp, by simp, by omega, by simpa using hpa, by simpa using hpa⟩
      · obtain ⟨j, hj, hmj, hpj⟩ := nth_filter_index p as k (by simp at hlen ⊢; omega)
          (by omega)
        refine ⟨0, j + 1, by simp, by simp; omega, by omega, by simpa using hpa, ?_⟩
        simpa using hpj
    · rw [List.filter_cons_of_neg (by simpa using hpa)] at hlen
      obtain ⟨i, j, hi, hj, hij, hpi, hpj⟩ := ih hlen
      refine ⟨i + 1, j + 1, by simp; omega, by simp; omega, by omega, ?_, ?_⟩
      · simpa using hpi
      · simpa using hpj

theorem window_bound_of_gap (qps : ℕ) (l : List ℚ) (hgap : GapProp qps l) (t : ℚ) :
    (l.filter (inWindow t)).length ≤ qps := by
  by_contra hc
  push_neg at hc
  obtain ⟨i, j, hi, hj, hij, hpi, hpj⟩ :=
    exists_far_indices (inWindow t) qps l (by omega)
  have hg := hgap i j hi hj hij
  unfold inWindow at hpi hpj
  simp only [Bool.and_eq_true, decide_eq_true_eq] at hpi hpj
  linarith [hpi.1, hpj.2]

/-- Appending a fresh initiation time `x` preserves the gap property when at
most `kept.length < qps` of the existing events can still conflict with `x`
and every earlier event is more than one second older than `x`. -/
theorem gapProp_append_front (qps : ℕ) (front kept : List ℚ) (x : ℚ)
    (hgap : GapProp qps (front ++ kept))
    (hK : kept.length + 1 ≤ qps)
    (hfb : ∀ e ∈ front, e < x - 1) :
    GapProp qps (front ++ kept ++ [x]) := by
  intro i j hi hj hij
  simp only [List.get_eq_getElem]
  have hjn : j < (front ++ kept).length + 1 := by
    simpa [List.length_append] using hj
  by_cases hjl : j < (front ++ kept).length
  · have hin : i < (front ++ kept).length := by omega
    have e1 : (front ++ kept ++ [x])[i] = (front ++ kept)[i] :=
      List.getElem_append_left hin
    have e2 : (front ++ kept ++ [x])[j] = (front ++ kept)[j] :=
      List.getElem_append_left hjl
    rw [e1, e2]
    have := hgap i j hin hjl hij
    simpa using this
  · have hj' : j = (front ++ kept).length := by omega
    have e2 : (front ++ kept ++ [x])[j] = x := by
      subst hj'
      simp [List.getElem_append_right]
    have hif : i < front.length := by
      simp only [List.length_append] at hj' hK ⊢
      omega
    have hin : i < (front ++ kept).length := by
      simp only [List.length_append]
      omega
    have e1 : (front ++ kept ++ [x])[i] = front[i] := by
      rw [List.getElem_append_left hin, List.getElem_append_left hif]
    rw [e1, e2]
    have := hfb front[i] (List.getElem_mem hif)
    linarith

/-- Invariant of the acquire loop: under strict validity, the recorded trace
decomposes as stale events (more than one second older than the clock) followed
by at most `qps` recent ones, and every extension of the initiation history
keeps the gap property. -/
theorem rl_gap_aux (qps : ℕ) (hqps : 1 ≤ qps) :
    ∀ (ops : List RLOp) (clock : ℚ) (front evs : List ℚ),
      (∀ e ∈ front, e < clock - 1) →
      List.Pairwise (· ≤ ·) (front ++ evs) →
      (∀ e ∈ front ++ evs, e ≤ clock) →
      evs.length ≤ qps →
      GapProp qps (front ++ evs) →
      rlStrictValid qps clock evs ops →
      GapProp qps (front ++ evs ++ appendedTimes ops) := by
  intro ops
  induction ops with
  | nil =>
    intro clock front evs _ _ _ _ hgap _
    simpa [appendedTimes] using hgap
  | cons op rest ih =>
    intro clock front evs hfront hP hbound hlen hgap hv
    rw [rlStrictValid] at hv
    obtain ⟨hclock, hne, hsleep, hrest⟩ := hv
    have hpe : List.Pairwise (· ≤ ·) evs := (List.pairwise_append.mp hP).2.1
    have hsub1 : (prune op.now evs).Sublist evs := List.filter_sublist evs
    have hpev1 : List.Pairwise (· ≤ ·) (prune op.now evs) := hpe.sublist hsub1
    obtain ⟨d₁, hd₁, hd₁lt⟩ := prune_split op.now evs hpe
    by_cases hpos : 0 < sleepFor qps evs op
    · -- sleep branch
      rw [if_pos hpos] at hsleep
      obtain ⟨hs1, hs2⟩ := hsleep
      have hfull : qps ≤ (prune op.now evs).length := by
        by_contra hnf
        unfold sleepFor at hpos
        rw [if_neg hnf] at hpos
        exact absurd hpos (lt_irrefl 0)
      have hsf : sleepFor qps evs op = (prune op.now evs).headD 0 + 1 - op.now := by
        unfold sleepFor
        rw [if_pos hfull]
      have hne1 : prune op.now evs ≠ [] := by
        intro h0
        rw [h0] at hfull
        simp at hfull
        omega
      have hnow_lt : op.now < op.now2 := by
        rw [hsf] at hs1
        have hh := mem_prune (headD_mem hne1)
        linarith [hh.2]
      have hhead_lt : (prune op.now evs).headD 0 < op.now2 - 1 := by
        rw [hsf] at hs1
        linarith
      obtain ⟨d₂, hd₂, hd₂lt⟩ := prune_split op.now2 (prune op.now evs) hpev1
      have hsub2 : (prune op.now2 (prune op.now evs)).Sublist (prune op.now evs) :=
        List.filter_sublist _
      have hlen2 : (prune op.now2 (prune op.now evs)).length <
          (prune op.now evs).length := by
        rcases lt_or_ge (prune op.now2 (prune op.now evs)).length
          (prune op.now evs).length with h | h
        · exact h
        · exfalso
          have heq := hsub2.eq_of_length_le h
          have hmem : (prune op.now evs).headD 0 ∈ prune op.now2 (prune op.now evs) := by
            rw [heq]
            exact headD_mem hne1
          have := (mem_prune hmem).2
          linarith
      have hlen1le : (prune op.now evs).length ≤ qps := le_trans hsub1.length_le hlen
      have hstep : rlStep qps evs op = prune op.now2 (prune op.now evs) ++ [op.tApp] := by
        unfold rlStep
        rw [if_pos hpos]
      rw [hstep] at hrest
      set k₂ := prune op.now2 (prune op.now evs) with hk₂
      set k₁ := prune op.now evs with hk₁
      have hshape : front ++ evs ++ appendedTimes (op :: rest) =
          (front ++ d₁ ++ d₂) ++ (k₂ ++ [op.tApp]) ++ appendedTimes rest := by
        simp only [appendedTimes, List.map_cons]
        rw [hd₁, hd₂]
        simp [List.append_assoc]
      have hsame : (front ++ d₁ ++ d₂) ++ (k₂ ++ [op.tApp]) =
          (front ++ evs) ++ [op.tApp] := by
        rw [hd₁, hd₂]
        simp [List.append_assoc]
      rw [hshape]
      apply ih op.tApp (front ++ d₁ ++ d₂) (k₂ ++ [op.tApp])
      · intro e he
        simp only [List.append_assoc, List.mem_append] at he
        rcases he with he | he | he
        · have := hfront e he
          linarith
        · have := hd₁lt e he
          linarith
        · have := hd₂lt e he
          linarith
      · have hall_le : ∀ e ∈ front ++ evs, e ≤ op.tApp := by
          intro e he
          have := hbound e he
          linarith
        have hP2 : List.Pairwise (· ≤ ·) ((front ++ evs) ++ [op.tApp]) := by
          rw [List.pairwise_append]
          exact ⟨hP, List.pairwise_singleton _ _, fun a ha b hb => by
            rw [List.mem_singleton] at hb
            subst hb
            exact hall_le a ha⟩
        rw [List.append_assoc] at hsame ⊢
        rw [hsame]
        exact hP2
      · intro e he
        rw [List.append_assoc] at hsame
        rw [List.append_assoc, hsame, List.mem_append] at he
        rcases he with he | he
        · have := hbound e he
          linarith
        · rw [List.mem_singleton] at he
          subst he
          exact le_refl _
      · simp only [List.length_append, List.length_singleton]
        omega
      · have hsame2 : (front ++ d₁ ++ d₂) ++ k₂ = front ++ evs := by
          rw [hd₁, hd₂]
          simp [List.append_assoc]
        have happ := gapProp_append_front qps (front ++ d₁ ++ d₂) k₂ op.tApp
          (by rw [hsame2]; exact hgap)
          (by omega)
          (by
            intro e he
            simp only [List.append_assoc, List.mem_append] at he
            rcases he with he | he | he
            · have := hfront e he
              linarith
            · have := hd₁lt e he
              linarith
            · have := hd₂lt e he
              linarith)
        rw [← List.append_assoc]
        exact happ
      · exact hrest
    · -- no-sleep branch
      rw [if_neg hpos] at hsleep
      have hlen1 : (prune op.now evs).length < qps := by
        by_contra hfull
        push_neg at hfull
        have hne1 : prune op.now evs ≠ [] := by
          intro h0
          rw [h0] at hfull
          simp at hfull
          omega
        obtain ⟨hmem, hge⟩ := mem_prune (headD_mem hne1)
        have hneq := hne _ hmem
        have hgt : op.now - 1 < (prune op.now evs).headD 0 :=
          lt_of_le_of_ne hge (Ne.symm hneq)
        apply hpos
        unfold sleepFor
        rw [if_pos hfull]
        linarith
      have hstep : rlStep qps evs op = prune op.now evs ++ [op.tApp] := by
        unfold rlStep
        rw [if_neg hpos]
      rw [hstep] at hrest
      set k₁ := prune op.now evs with hk₁
      have hclock_le : clock ≤ op.tApp := le_trans hclock hsleep
      have hshape : front ++ evs ++ appendedTimes (op :: rest) =
          (front ++ d₁) ++ (k₁ ++ [op.tApp]) ++ appendedTimes rest := by
        simp only [appendedTimes, List.map_cons]
        rw [hd₁]
        simp [List.append_assoc]
      have hsame : (front ++ d₁) ++ (k₁ ++ [op.tApp]) = (front ++ evs) ++ [op.tApp] := by
        rw [hd₁]
        simp [List.append_assoc]
      rw [hshape]
      apply ih op.tApp (front ++ d₁) (k₁ ++ [op.tApp])
      · intro e he
        rw [List.mem_append] at he
        rcases he with he | he
        · have := hfront e he
          linarith
        · have := hd₁lt e he
          linarith
      · have hall_le : ∀ e ∈ front ++ evs, e ≤ op.tApp := by
          intro e he
          have := hbound e he
          linarith
        have hP2 : List.Pairwise (· ≤ ·) ((front ++ evs) ++ [op.tApp]) := by
          rw [List.pairwise_append]
          exact ⟨hP, List.pairwise_singleton _ _, fun a ha b hb => by
            rw [List.mem_singleton] at hb
            subst hb
            exact hall_le a ha⟩
        rw [List.append_assoc] at hsame ⊢
        rw [hsame]
        exact hP2
      · intro e he
        rw [List.append_assoc] at hsame
        rw [List.append_assoc, hsame, List.mem_append] at he
        rcases he with he | he
        · have := hbound e he
          linarith
        · rw [List.mem_singleton] at he
          subst he
          exact le_refl _
      · simp only [List.length_append, List.length_singleton]
        omega
      · have hsame2 : (front ++ d₁) ++ k₁ = front ++ evs := by
          rw [hd₁, List.append_assoc]
        have happ := gapProp_append_front qps (front ++ d₁) k₁ op.tApp
          (by rw [hsame2]; exact hgap)
          (by omega)
          (by
            intro e he
            rw [List.mem_append] at he
            rcases he with he | he
            · have := hfront e he
              linarith
            · have := hd₁lt e he
              linarith)
        rw [← List.append_assoc]
        exact happ
      · exact hrest

/-- C9 — amended. Assuming the trace is strictly valid — the monotonic clock
never shows a recorded event exactly one second old at entry, and each sleep
strictly overshoots the requested duration (`sleep_for = events[0] + 1.0 - now`
at serper.py:27) — any `qps + 1` initiations that are `qps` apart in order span
strictly more than one second, hence every closed 1-second window contains at
most `SERPER_QPS` search-call initiations. At an exact boundary coincidence
(`rate_limit_window_counterexample`) `sleep_for` evaluates to `0` and the
bound fails, which is why strictness is required. -/
theorem rate_limiter_sliding_window (qps : ℕ) (hqps : 1 ≤ qps) (ops : List RLOp) (c₀ : ℚ)
    (hvalid : rlStrictValid qps c₀ [] ops) :
    GapProp qps (appendedTimes ops) ∧
    ∀ t : ℚ, ((appendedTimes ops).filter (inWindow t)).length ≤ qps := by
  have hgap := rl_gap_aux qps hqps ops c₀ [] [] (by simp) (by simp) (by simp) (by simp)
    (by intro i j hi hj hij; simp at hi) hvalid
  simp only [List.nil_append] at hgap
  exact ⟨hgap, fun t => window_bound_of_gap qps _ hgap t⟩

/-- A concrete strictly-valid trace with `qps = 1`: the second acquire at
`t = 11.5` finds the pruned window empty and proceeds without sleeping. -/
def exOps2 : List RLOp := [⟨10, 10, 10⟩, ⟨23/2, 23/2, 23/2⟩]

/-- Witness for `rate_limiter_sliding_window` at `qps = 1`, `ops = exOps2`:
the strict-validity hypothesis is discharged by evaluation and the window
bound is obtained by applying the theorem. -/
theorem rate_limiter_sliding_window_witness :
    ((1:ℕ) ≤ 1 ∧ rlStrictValid 1 0 [] exOps2) ∧
    GapProp 1 (appendedTimes exOps2) ∧
    ∀ t : ℚ, ((appendedTimes exOps2).filter (inWindow t)).length ≤ 1 := by
  have hv : rlStrictValid 1 0 [] exOps2 := by
    norm_num [exOps2, rlStrictValid, sleepFor, prune, rlStep, List.filter]
  exact ⟨⟨le_refl 1, hv⟩, rate_limiter_sliding_window 1 (le_refl 1) exOps2 0 hv⟩

end Serper
